import Mathlib

/-! The package `stored`: index engine, promise trampoline and lazy values.

A shallow embedding of `index.go`, `promise.go` and `value.go`, together with the
parts of the FoundationDB binding they call (tuple layer, subspaces and the
transaction's key/value operations), and the properties proved about them.
-/

namespace Stored

/-! ## Byte strings and the ordered key space -/

/-- A byte string (`[]byte`, `fdb.Key`): every element stands for one byte, so
values below 256 are meant. -/
abbrev Bytes := List Nat

/-- Strict lexicographic order on keys, as `bytes.Compare(a, b) < 0`. -/
def keyLt : Bytes → Bytes → Bool
  | _, [] => false
  | [], _ :: _ => true
  | a :: as, b :: bs => decide (a < b) || (a == b && keyLt as bs)

/-- Non-strict lexicographic order on keys. -/
def keyLe (a b : Bytes) : Bool := !keyLt b a

/-- Membership of a key in the half-open key range starting at `b` and ending before `e`
(`fdb.KeyRange`). -/
def inRange (b e k : Bytes) : Bool := keyLe b k && keyLt k e

/-- Go `bytes.HasPrefix(k, p)`. -/
def hasPrefix : Bytes → Bytes → Bool
  | _, [] => true
  | [], _ :: _ => false
  | a :: k, b :: p => a == b && hasPrefix k p

/-! ## The tuple layer (`fdb/tuple`) -/

/-- A Go `int64`. -/
structure Int64 where
  val : Int
  lo : -9223372036854775808 ≤ val
  hi : val ≤ 9223372036854775807
deriving DecidableEq

/-- The tuple elements of this development: byte strings, unicode strings (given by
their UTF-8 bytes) and 64-bit integers. Floating-point, nested and other element kinds
of the tuple layer are not represented, and a nil byte slice is not told apart from an
empty one. On these elements `reflect.DeepEqual` of two tuples is equality. -/
inductive TupleElement where
  | bytes (b : Bytes)
  | str (s : Bytes)
  | int (i : Int64)
deriving DecidableEq

/-- A `tuple.Tuple`. -/
abbrev Tuple := List TupleElement

/-- The tuple layer's escaping of a byte/unicode string body: every `0x00` is followed by `0xFF`. -/
def escape : Bytes → Bytes
  | [] => []
  | b :: rest => if b = 0 then 0 :: 255 :: escape rest else b :: escape rest

/-- The tuple layer's `sizeLimits[n]`, the largest value that fits `n` bytes. -/
def sizeLimits (n : Nat) : Nat := 256 ^ n - 1

/-- The loop of `bisectLeft`: advance `n` while `sizeLimits[n] < u`. -/
def bisectLeftAux (u : Nat) : Nat → Nat → Nat
  | 0, n => n
  | fuel + 1, n => if sizeLimits n < u then bisectLeftAux u fuel (n + 1) else n

/-- The tuple layer's `bisectLeft`: the number of bytes needed for the magnitude `u`
(at most 8 for a 64-bit magnitude). -/
def bisectLeft (u : Nat) : Nat := bisectLeftAux u 8 0

/-- The `n` low-order bytes of `v`, most significant first. -/
def bigEndian : Nat → Nat → Bytes
  | 0, _ => []
  | n + 1, v => (v / 256 ^ n) % 256 :: bigEndian n v

/-- The number written by big-endian bytes, continuing from `acc`. -/
def fromBigEndian (acc : Nat) : Bytes → Nat
  | [] => acc
  | b :: rest => fromBigEndian (acc * 256 + b) rest

/-- The tuple layer's `encodeInt`. -/
def encodeInt (i : Int) : Bytes :=
  if i = 0 then [0x14]
  else if 0 < i then
    let n := bisectLeft i.toNat
    (0x14 + n) :: bigEndian n i.toNat
  else
    let n := bisectLeft (-i).toNat
    (0x14 - n) :: bigEndian n (sizeLimits n - (-i).toNat)

/-- The tuple layer's encoding of one element. -/
def encodeElement : TupleElement → Bytes
  | .bytes b => 0x01 :: escape b ++ [0x00]
  | .str s => 0x02 :: escape s ++ [0x00]
  | .int i => encodeInt i.val

/-- `Tuple.Pack`: the concatenation of the element encodings. -/
def pack : Tuple → Bytes
  | [] => []
  | e :: t => encodeElement e ++ pack t

/-- The tuple layer's `decodeBytes` without the type code: the unescaped body up to the
terminator and the bytes that follow it; `none` when the terminator is missing. -/
def decodeBytes : Bytes → Option (Bytes × Bytes)
  | [] => none
  | [b] => if b = 0 then some ([], []) else none
  | b :: c :: rest =>
    if b = 0 then
      if c = 255 then (decodeBytes rest).map (fun p => (0 :: p.1, p.2))
      else some ([], c :: rest)
    else (decodeBytes (c :: rest)).map (fun p => (b :: p.1, p.2))

/-- Build an `Int64` when the integer is in range. -/
def Int64.ofInt? (v : Int) : Option Int64 :=
  if h : -9223372036854775808 ≤ v ∧ v ≤ 9223372036854775807 then some ⟨v, h.1, h.2⟩ else none

/-- The tuple layer's `decodeInt` on the type code `c` and the bytes after it; `none` when
too few bytes remain or the value is no `int64`. -/
def decodeInt (c : Nat) (rest : Bytes) : Option (Int64 × Bytes) :=
  let n := if 0x14 ≤ c then c - 0x14 else 0x14 - c
  if rest.length < n then none
  else
    let v := fromBigEndian 0 (rest.take n)
    let r : Int := if 0x14 ≤ c then (v : Int) else (v : Int) - (sizeLimits n : Int)
    (Int64.ofInt? r).map (fun i => (i, rest.drop n))

/-- One step of the tuple layer's `decodeTuple` loop: the first element and the remaining bytes. -/
def decodeElement : Bytes → Option (TupleElement × Bytes)
  | [] => none
  | c :: rest =>
    if c = 0x01 then (decodeBytes rest).map (fun p => (.bytes p.1, p.2))
    else if c = 0x02 then (decodeBytes rest).map (fun p => (.str p.1, p.2))
    else if 0x0c ≤ c ∧ c ≤ 0x1c then (decodeInt c rest).map (fun p => (.int p.1, p.2))
    else none

/-- The loop of `tuple.Unpack`, bounded by `fuel` elements. -/
def unpackAux : Nat → Bytes → Option Tuple
  | _, [] => some []
  | 0, _ :: _ => none
  | fuel + 1, b :: rest =>
    match decodeElement (b :: rest) with
    | none => none
    | some (e, rest') => (unpackAux fuel rest').map (fun t => e :: t)

/-- `tuple.Unpack`: every element takes at least one byte, so the length of the input
bounds the number of elements. -/
def unpack (b : Bytes) : Option Tuple := unpackAux b.length b

/-! ## Subspaces (`fdb/subspace`) -/

/-- A `subspace.Subspace` (also a `directory.DirectorySubspace`): its raw prefix. -/
structure Subspace where
  b : Bytes
deriving DecidableEq

/-- `Subspace.Sub(el...)`: the prefix extended by the packed tuple. -/
def Subspace.Sub (s : Subspace) (el : Tuple) : Subspace := ⟨s.b ++ pack el⟩

/-- `Subspace.Pack(t)`: the prefix followed by the packed tuple. -/
def Subspace.Pack (s : Subspace) (t : Tuple) : Bytes := s.b ++ pack t

/-- `Subspace.FDBKey()`: a subspace used as a key is its prefix. -/
def Subspace.FDBKey (s : Subspace) : Bytes := s.b

/-- `Subspace.FDBRangeKeys()`: the prefix followed by `0x00`, and by `0xFF`. -/
def Subspace.FDBRangeKeys (s : Subspace) : Bytes × Bytes := (s.b ++ [0x00], s.b ++ [0xFF])

/-- The errors these files return or pass on: the two package errors `ErrAlreadyExist` and
`ErrNotFound` (declared outside these files), errors made with `errors.New`, and
errors of the store. -/
inductive Error where
  | ErrAlreadyExist
  | ErrNotFound
  | msg (s : String)
  | store (code : Nat)
deriving DecidableEq

/-- `Subspace.Unpack(k)`: fails when the key is outside the subspace or does not decode. -/
def Subspace.Unpack (s : Subspace) (k : Bytes) : Except Error Tuple :=
  if hasPrefix k s.b then
    match unpack (k.drop s.b.length) with
    | some t => .ok t
    | none => .error (.msg "tuple: malformed key")
  else .error (.msg "key is not in subspace")

/-! ## The transaction (`fdb.Transaction`) -/

/-- An operation issued on a transaction. -/
inductive Op where
  | get (k : Bytes)
  | set (k v : Bytes)
  | clear (k : Bytes)
  | clearRange (b e : Bytes)
  | getRange (b e : Bytes) (limit : Nat) (rev : Bool)
  | getKey (k : Bytes)
deriving DecidableEq

/-- The state of one transaction: the key/value pairs it sees (its own writes included, at
most one pair per key counts: the first), the error its reads fail with, if any, and the
operations issued so far, newest first. The log is bookkeeping of this development, the
Go binding keeps none. -/
structure Txn where
  kv : List (Bytes × Bytes)
  readErr : Option Error
  log : List Op
deriving DecidableEq

/-- The value stored under a key: empty when the key has no entry. -/
def Txn.lookup (tr : Txn) (k : Bytes) : Bytes := (tr.kv.lookup k).getD []

/-- `tr.Get(k)`: issues the read; the future holds what the store has at this moment. -/
def Txn.Get (tr : Txn) (k : Bytes) : Txn × Except Error Bytes :=
  ({ tr with log := .get k :: tr.log },
    match tr.readErr with
    | some e => .error e
    | none => .ok (tr.lookup k))

/-- `tr.Set(k, v)`. -/
def Txn.Set (tr : Txn) (k v : Bytes) : Txn :=
  { tr with kv := (k, v) :: tr.kv.filter (fun e => e.1 != k), log := .set k v :: tr.log }

/-- `tr.Clear(k)`: removes the one key. -/
def Txn.Clear (tr : Txn) (k : Bytes) : Txn :=
  { tr with kv := tr.kv.filter (fun e => e.1 != k), log := .clear k :: tr.log }

/-- `tr.ClearRange(r)`: removes every key from `b` (inclusive) up to `e` (exclusive). -/
def Txn.ClearRange (tr : Txn) (b e : Bytes) : Txn :=
  { tr with kv := tr.kv.filter (fun p => !inRange b e p.1), log := .clearRange b e :: tr.log }

/-- Insert a row into rows sorted by key. -/
def insertRow (r : Bytes × Bytes) : List (Bytes × Bytes) → List (Bytes × Bytes)
  | [] => [r]
  | x :: rest => if keyLe r.1 x.1 then r :: x :: rest else x :: insertRow r rest

/-- Rows in ascending key order. -/
def sortRows : List (Bytes × Bytes) → List (Bytes × Bytes)
  | [] => []
  | r :: rest => insertRow r (sortRows rest)

/-- The pairs that count, one per key: a later pair of a key already seen is shadowed. -/
def liveRows : List (Bytes × Bytes) → List (Bytes × Bytes)
  | [] => []
  | r :: rest => r :: (liveRows rest).filter (fun e => e.1 != r.1)

/-- `tr.GetRange(r, options)` read to the end: the rows of the range in key order, in
descending order when `rev` is set, cut to `limit` rows when `limit` is not 0. -/
def Txn.GetRange (tr : Txn) (b e : Bytes) (limit : Nat) (rev : Bool) :
    Txn × Except Error (List (Bytes × Bytes)) :=
  ({ tr with log := .getRange b e limit rev :: tr.log },
    match tr.readErr with
    | some err => .error err
    | none =>
      let rows := sortRows ((liveRows tr.kv).filter (fun p => inRange b e p.1))
      let rows := if rev then rows.reverse else rows
      .ok (if limit = 0 then rows else rows.take limit))

/-- The least key among `l` that is greater than `k`, starting from the candidate `best`. -/
def leastAbove (k : Bytes) : List (Bytes × Bytes) → Option Bytes → Option Bytes
  | [], best => best
  | p :: rest, best =>
    if keyLt k p.1 then
      match best with
      | none => leastAbove k rest (some p.1)
      | some m => leastAbove k rest (some (if keyLt p.1 m then p.1 else m))
    else leastAbove k rest best

/-- `tr.GetKey(fdb.FirstGreaterThan(k))`: the first key after `k`, or the end of the
user key space `0xFF` when there is none. -/
def Txn.GetKeyFirstGreaterThan (tr : Txn) (k : Bytes) : Txn × Except Error Bytes :=
  ({ tr with log := .getKey k :: tr.log },
    match tr.readErr with
    | some e => .error e
    | none => .ok ((leastAbove k tr.kv none).getD [0xFF]))

/-! ## Records, fields and objects -/

/-- A Go `float64`, given by its IEEE-754 bit pattern (below 2^64). -/
structure Float64 where
  bits : Nat
deriving DecidableEq

/-- Go `f == 0.0`: true for the bit patterns of +0 and -0 only. -/
def Float64.isZero (f : Float64) : Bool := f.bits % 9223372036854775808 == 0

/-- What a field of a record holds (a Go `interface{}`): a value that can be a tuple
element, or a `float64`. -/
inductive Iface where
  | elem (e : TupleElement)
  | float64 (f : Float64)
deriving DecidableEq

/-- A `*Field`, declared outside these files: its name, its position in the struct, and
its two methods called here, `isEmpty` and `ToInterface`, which are taken as they
come. -/
structure Field where
  Name : String
  Num : Nat
  isEmpty : Iface → Bool
  ToInterface : Bytes → Iface

/-- A `*Struct`, declared outside these files: a record, given by what its method `Get`
returns for each field. -/
structure Struct where
  Get : Field → Iface

/-- One field of a struct seen through `reflect`: whether it can be set, and what it holds
(`none` for the zero value). -/
structure Slot where
  canSet : Bool
  val : Option Iface
deriving DecidableEq

/-- An `*Object`, declared outside these files, with what is read of it here: `primary`
is the primary subspace, `primaryFields` the fields of the primary key, `fields` the
field lookup by name, and `zero` a new instance of `reflectType`. -/
structure Object where
  primary : Subspace
  primaryFields : List Field
  fields : List (String × Field)
  zero : List Slot

/-- How a run of Go code stops without returning: a panic, or a step outside this
development (a `float64` as a tuple element). -/
inductive Abort where
  | panic (msg : String)
  | unmodelled (what : String)
deriving DecidableEq

/-! ## `index.go` -/

/-- The `Index` struct. `handle` is `none` for the nil function; a handle returns the key
bytes for a record (nil and empty both have length 0). -/
structure Index where
  Name : String
  Unique : Bool
  Geo : Int
  dir : Subspace
  object : Object
  field : Field
  secondary : Field
  handle : Option (Struct → Bytes)

section IndexCode

-- `geohash.Encode` of the geohash package is a parameter: from latitude and longitude to
-- the hash string.
variable (geohashEncode : Float64 → Float64 → Bytes)

/-- `Index.getKey`: the index tuple of a record, `none` for the nil tuple. -/
def Index.getKey (i : Index) (input : Struct) : Except Abort (Option Tuple) :=
  match i.handle with
  | some handle =>
    let keyBytes := handle input
    if keyBytes.length = 0 then .ok none
    else .ok (some [.bytes keyBytes])
  | none =>
    let indexValue := input.Get i.field
    if i.field.isEmpty indexValue then .ok none
    else if i.Geo ≠ 0 then
      let lngInterface := input.Get i.secondary
      match indexValue, lngInterface with
      | .float64 lat, .float64 long =>
        if lat.isZero && long.isZero then .ok none
        else
          let hash := geohashEncode lat long
          if i.Geo < 12 then
            if 0 ≤ i.Geo ∧ i.Geo ≤ hash.length then .ok (some [.str (hash.take i.Geo.toNat)])
            else .error (.panic "slice bounds out of range")
          else .ok (some [.str hash])
      | _, _ => .error (.panic "interface conversion: interface {} is not float64")
    else
      match indexValue with
      | .elem e => .ok (some [e])
      | .float64 _ => .error (.unmodelled "float64 tuple element")

/-- `Index.Delete`: removes the entry of `key` (`none` is the nil tuple). -/
def Index.Delete (i : Index) (tr : Txn) (primaryTuple : Tuple) (key : Option Tuple) : Txn :=
  match key with
  | none => tr
  | some key =>
    let sub := i.dir.Sub key
    if i.Unique then tr.Clear sub.FDBKey
    else
      let sub := sub.Sub primaryTuple
      tr.ClearRange sub.FDBRangeKeys.1 sub.FDBRangeKeys.2

/-- Lines 71 to 94 of `Index.Write`, the part after the old record has been dealt with:
returns the transaction and the error (`none` for nil). -/
def Index.writeKey (i : Index) (tr : Txn) (primaryTuple : Tuple) (key : Option Tuple) :
    Txn × Option Error :=
  match key with
  | none => (tr, none)
  | some key =>
    if i.Unique then
      let (tr1, previousPromise) := tr.Get (i.dir.Pack key)
      let tr2 := tr1.Set (i.dir.Pack key) (pack primaryTuple)
      match previousPromise with
      | .error err => (tr2, some err)
      | .ok previousBytes =>
        if previousBytes.length ≠ 0 then
          if pack primaryTuple ≠ previousBytes then (tr2, some .ErrAlreadyExist)
          else (tr2, none)
        else (tr2, none)
    else
      let fullKey := key ++ primaryTuple
      (tr.Set (i.dir.Pack fullKey) [], none)

/-- `Index.Write`: `oldObject` is `none` for the nil pointer. -/
def Index.Write (i : Index) (tr : Txn) (primaryTuple : Tuple) (input : Struct)
    (oldObject : Option Struct) : Except Abort (Txn × Option Error) :=
  match i.getKey geohashEncode input with
  | .error a => .error a
  | .ok key =>
    match oldObject with
    | none => .ok (i.writeKey tr primaryTuple key)
    | some old =>
      match i.getKey geohashEncode old with
      | .error a => .error a
      | .ok none => .ok (i.writeKey tr primaryTuple key)
      | .ok (some toDelete) =>
        if some toDelete = key then .ok (tr, none)
        else .ok (i.writeKey (i.Delete tr primaryTuple (some toDelete)) primaryTuple key)

end IndexCode

/-- A `*Query`, as far as `getList` reads it: `from` is `none` for the nil tuple, and
`limit` 0 means no limit. -/
structure Query where
  primary : Tuple
  «from» : Option Tuple
  limit : Nat
  reverse : Bool

/-- Modelled from the spec: the `*needObject` that `object.need(tr, object.sub(key))`
makes, "a deferred materialization for that primary key". `need` and `sub` are methods
of the object outside these files; the handle is given by the primary key tuple it is
made for. -/
structure needObject where
  key : Tuple
deriving DecidableEq

/-- The loop of `Index.getList` over the rows read. -/
def Index.getListRows (sub : Subspace) (primaryLen : Nat) :
    List (Bytes × Bytes) → List needObject → Except Error (List needObject)
  | [], values => .ok values
  | kv :: rows, values =>
    match sub.Unpack kv.1 with
    | .error err => .error err
    | .ok fullTuple =>
      if (fullTuple.length : Int) - (primaryLen : Int) < 0 then
        .error (.msg "invalid data: key too short")
      else
        let key := fullTuple.drop (fullTuple.length - primaryLen)
        Index.getListRows sub primaryLen rows (values ++ [⟨key⟩])

/-- `Index.getList`. -/
def Index.getList (i : Index) (tr : Txn) (q : Query) :
    Except Abort (Txn × Except Error (List needObject)) :=
  if i.Unique then .error (.panic "index is unique (lists not supported)")
  else
    let sub := i.dir.Sub q.primary
    let (start, «end») := sub.FDBRangeKeys
    let (start, «end») :=
      match q.from with
      | some f => if q.reverse then (start, sub.Pack f) else (sub.Pack f, «end»)
      | none => (start, «end»)
    let (tr1, rangeResult) := tr.GetRange start «end» q.limit q.reverse
    let primaryLen := i.object.primaryFields.length
    match rangeResult with
    | .error err => .ok (tr1, .error err)
    | .ok rows => .ok (tr1, Index.getListRows sub primaryLen rows [])

/-- `Index.getPrimary`: `data` is the index value looked up. -/
def Index.getPrimary (i : Index) (tr : Txn) (data : TupleElement) : Txn × Except Error Subspace :=
  let sub := i.dir.Sub [data]
  if i.Unique then
    let (tr1, res) := tr.Get sub.FDBKey
    match res with
    | .error err => (tr1, .error err)
    | .ok bytes =>
      if bytes.length = 0 then (tr1, .error .ErrNotFound)
      else
        match unpack bytes with
        | none => (tr1, .error (.msg "tuple: malformed key"))
        | some primaryTuple => (tr1, .ok (i.object.primary.Sub primaryTuple))
  else
    let (tr1, res) := tr.GetKeyFirstGreaterThan sub.FDBKey
    match res with
    | .error err => (tr1, .error err)
    | .ok primaryKey =>
      match sub.Unpack primaryKey with
      | .error _ => (tr1, .error .ErrNotFound)
      | .ok primaryTuple =>
        if primaryTuple.length < 1 then (tr1, .error .ErrNotFound)
        else (tr1, .ok (i.object.primary.Sub primaryTuple))


/-! ## `value.go` -/

/-- The part of a `Value` a fetch closure writes: the field map and the error. -/
structure Fetched where
  data : List (String × Iface)
  err : Option Error

/-- The `Value` struct. `fetch` is `none` for the nil closure; a closure is given by what it
does to the field map and the error. `data` lists the entries of the Go map.
`fetchCalls` counts the invocations of the closure; it is bookkeeping of this
development, the Go struct has no such field. -/
structure Value where
  object : Object
  fetch : Option (Fetched → Fetched)
  data : List (String × Iface)
  err : Option Error
  fetchCalls : Nat

/-- `Value.get`: runs the pending fetch and drops it. -/
def Value.get (v : Value) : Value :=
  match v.fetch with
  | some fetch =>
    let r := fetch ⟨v.data, v.err⟩
    { v with data := r.data, err := r.err, fetch := none, fetchCalls := v.fetchCalls + 1 }
  | none => v

/-- The body of the loop of `Value.Scan` and `Value.Reflect` for one map entry: looks the
field up, skips unknown and unsettable fields, sets the others. -/
def Value.setField (o : Object) (object : List Slot) (entry : String × Iface) :
    Except Abort (List Slot) :=
  match o.fields.lookup entry.1 with
  | none => .ok object
  | some field =>
    match object.get? field.Num with
    | none => .error (.panic "reflect: Field index out of range")
    | some objField =>
      if !objField.canSet then .ok object
      else .ok (object.set field.Num { objField with val := some entry.2 })

/-- The loop `for key, val := range v.data` of `Value.Scan` and `Value.Reflect`. -/
def Value.fill (o : Object) : List (String × Iface) → List Slot → Except Abort (List Slot)
  | [], object => .ok object
  | entry :: rest, object =>
    match Value.setField o object entry with
    | .error a => .error a
    | .ok object => Value.fill o rest object

/-- `Value.Scan`: `obj` are the fields of the struct the caller points to. Returns the
value after the call and, unless the copy panics, the fields and the returned error. -/
def Value.Scan (v : Value) (obj : List Slot) : Value × Except Abort (List Slot × Option Error) :=
  let v :=
    match v.fetch with
    | some fetch =>
      let r := fetch ⟨v.data, v.err⟩
      { v with data := r.data, err := r.err, fetch := none, fetchCalls := v.fetchCalls + 1 }
    | none => v
  match v.err with
  | some err => (v, .ok (obj, some err))
  | none =>
    match Value.fill v.object v.data obj with
    | .error a => (v, .error a)
    | .ok object => (v, .ok (object, none))

/-- A `reflect.Value` as `Value.Reflect` returns it: the pointer made by `reflect.New`, or
the struct it points to, with the fields of the instance. -/
structure Reflected where
  isPtr : Bool
  fields : List Slot
deriving DecidableEq

/-- `Value.Reflect`. -/
def Value.Reflect (v : Value) : Value × Except Abort (Reflected × Option Error) :=
  let v :=
    match v.fetch with
    | some fetch =>
      let r := fetch ⟨v.data, v.err⟩
      { v with data := r.data, err := r.err, fetch := none, fetchCalls := v.fetchCalls + 1 }
    | none => v
  let value : Reflected := ⟨true, v.object.zero⟩
  match v.err with
  | some err => (v, .ok (value, some err))
  | none =>
    match Value.fill v.object v.data value.fields with
    | .error a => (v, .error a)
    | .ok fields => (v, .ok (⟨false, fields⟩, none))

/-- `Value.Err`. -/
def Value.Err (v : Value) : Value × Option Error :=
  let v :=
    match v.fetch with
    | some fetch =>
      let r := fetch ⟨v.data, v.err⟩
      { v with data := r.data, err := r.err, fetch := none, fetchCalls := v.fetchCalls + 1 }
    | none => v
  (v, v.err)

/-- `Value.Interface`: what `Reflect` returned, as an `interface{}`. -/
def Value.Interface (v : Value) : Value × Except Abort Reflected :=
  match v.Reflect with
  | (v, .error a) => (v, .error a)
  | (v, .ok (refl, _)) => (v, .ok refl)

/-! ## `promise.go` -/

/-- A response, the `interface{}` a chain hands to `done`; nil is `none` where a response
is optional. -/
inductive Resp where
  | bool (b : Bool)
  | int64 (i : Int64)
  | other (tag : Nat)
deriving DecidableEq

/-- The fields of a `Promise` that the steps of a chain read and write. -/
structure PState where
  readTr : Option Txn
  tr : Option Txn
  err : Option Error
  value : Option Value
  resp : Option Resp

/-- A `Chain`, the function type `func() Chain`. `nil` is the nil function. Calling
`step f next` in the promise state `s` leaves the state `f s` and returns the chain
`next s`: a step reads and writes the promise it belongs to, and nothing else that
lasts from one call to the next. Every value of this type is a chain without a cycle:
whatever the states, the calls come to the nil chain. -/
inductive Chain where
  | nil : Chain
  | step (f : PState → PState) (next : PState → Chain) : Chain

/-- The `Promise` struct, without its database handle. -/
structure Promise extends PState where
  chain : Chain
  readOnly : Bool

/-- The chain whose call is the function `body`: new state and returned chain. -/
def Chain.of (body : PState → PState × Chain) : Chain :=
  .step (fun s => (body s).1) (fun s => (body s).2)

/-- `Promise.do`. -/
def Promise.do (p : Promise) (chain : Chain) : Promise := { p with chain := chain }

/-- `Promise.doRead`. -/
def Promise.doRead (p : Promise) (chain : Chain) : Promise :=
  { p with readOnly := true, chain := chain }

/-- `Promise.fail`, as a step sees it: sets the error, returns the nil chain. -/
def Promise.fail (s : PState) (err : Option Error) : PState × Chain := ({ s with err := err }, .nil)

/-- `Promise.done`, as a step sees it: sets the response, returns the nil chain. -/
def Promise.done (s : PState) (resp : Option Resp) : PState × Chain :=
  ({ s with resp := resp }, .nil)

/-- `Promise.ok`, as a step sees it: returns the nil chain. -/
def Promise.ok (s : PState) : PState × Chain := (s, .nil)

/-- `Promise.setValueField`, as a step sees it. -/
def Promise.setValueField (s : PState) (o : Object) (field : Field) (bytes : Bytes) : PState :=
  let data := [(field.Name, field.ToInterface bytes)]
  let val : Value := { object := o, fetch := none, data := data, err := none, fetchCalls := 0 }
  { s with value := some val }

/-- The loop `for next != nil { next = next() }` of `Promise.execute`. -/
def Chain.run : Chain → PState → PState
  | .nil, s => s
  | .step f next, s => (next s).run (f s)

/-- `Promise.execute`: calling the nil chain panics. -/
def Promise.execute (p : Promise) : Except Abort (Promise × Option Resp × Option Error) :=
  match p.chain with
  | .nil => .error (.panic "invalid memory address or nil pointer dereference")
  | .step f next =>
    let st := (next p.toPState).run (f p.toPState)
    .ok ({ p with toPState := st }, st.resp, st.err)

/-- `Promise.clear`. -/
def Promise.clear (p : Promise) : Promise := { p with err := none, value := none, resp := none }

/-- The closure `Promise.transact` hands to `db.ReadTransact` or `db.Transact`: one
attempt on the transaction `tr`. -/
def Promise.attempt (p : Promise) (tr : Txn) : Except Abort (Promise × Option Resp × Option Error) :=
  if p.readOnly then
    let p := p.clear
    let p := { p with readTr := some tr }
    p.execute
  else
    let p := p.clear
    let p := { p with tr := some tr }
    let p := { p with readTr := some tr }
    p.execute

/-- `Promise.transact`. `db.Transact` and `db.ReadTransact` are the retry loops of the
binding: they call the closure on a transaction and call it again when the store asks
for a retry. `aborted` are the transactions of the attempts that were retried, `tr` is
that of the last attempt, whose response and error are returned as the closure
returned them (a commit that fails for good is not represented). -/
def Promise.transact (p : Promise) (aborted : List Txn) (tr : Txn) :
    Except Abort (Promise × Option Resp × Option Error) :=
  match aborted with
  | [] => p.attempt tr
  | t :: rest =>
    match p.attempt t with
    | .error a => .error a
    | .ok (p, _, _) => p.transact rest tr

/-- `Promise.Scan`: returns the promise after the call, the fields of the target and the
returned error. -/
def Promise.Scan (p : Promise) (aborted : List Txn) (tr : Txn) (obj : List Slot) :
    Except Abort (Promise × List Slot × Option Error) :=
  match p.transact aborted tr with
  | .error a => .error a
  | .ok (p, _, err) =>
    match err with
    | some err => .ok (p, obj, some err)
    | none =>
      match p.value with
      | none => .error (.panic "Scan couldn't be triggered because promise has no Value")
      | some value =>
        match value.Scan obj with
        | (_, .error a) => .error a
        | (value, .ok (object, err)) => .ok ({ p with value := some value }, object, err)

/-- `Promise.Err`. -/
def Promise.Err (p : Promise) (aborted : List Txn) (tr : Txn) :
    Except Abort (Promise × Option Error) :=
  match p.transact aborted tr with
  | .error a => .error a
  | .ok (p, _, err) => .ok (p, err)

/-- `Promise.Bool`. -/
def Promise.Bool (p : Promise) (aborted : List Txn) (tr : Txn) :
    Except Abort (Promise × Bool × Option Error) :=
  match p.transact aborted tr with
  | .error a => .error a
  | .ok (p, data, err) =>
    match err with
    | some err => .ok (p, false, some err)
    | none =>
      match data with
      | none => .error (.panic "promise does not contain any value, use Scan")
      | some (.bool res) => .ok (p, res, none)
      | some _ => .ok (p, false, some (.msg "promise value is not bool"))

/-- `Promise.Int64`. -/
def Promise.Int64 (p : Promise) (aborted : List Txn) (tr : Txn) :
    Except Abort (Promise × Int × Option Error) :=
  match p.transact aborted tr with
  | .error a => .error a
  | .ok (p, data, err) =>
    match err with
    | some err => .ok (p, 0, some err)
    | none =>
      match data with
      | none => .error (.panic "promise does not contain any value, use Scan")
      | some (.int64 res) => .ok (p, res.val, none)
      | some _ => .ok (p, 0, some (.msg "promise value is not int64"))


/-- `Index.Write` applied to the records of a list in turn, each under its primary key and
with no old record, stopping at the first call that does not return nil. -/
def Index.writeEach (geohashEncode : Float64 → Float64 → Bytes) (i : Index) :
    Txn → List (Tuple × Struct) → Except Abort (Txn × Option Error)
  | tr, [] => .ok (tr, none)
  | tr, r :: rest =>
    match i.Write geohashEncode tr r.1 r.2 none with
    | .error a => .error a
    | .ok (tr1, some err) => .ok (tr1, some err)
    | .ok (tr1, none) => Index.writeEach geohashEncode i tr1 rest

/-- The zero value of the `Promise` struct, a promise as it is before `do` or `doRead`. -/
def Promise.zero : Promise :=
  { readTr := none, tr := none, err := none, value := none, resp := none, chain := .nil,
    readOnly := false }

/-- Every step of the chain, in whatever state it is called, leaves a state related by `R`
to the one it was called in. -/
def Chain.StepsKeep (R : PState → PState → Prop) : Chain → Prop
  | .nil => True
  | .step f next => ∀ s, R s (f s) ∧ (next s).StepsKeep R

/-- The value once the closure `fetch` has run on it and has been dropped. -/
def Value.fetched (v : Value) (fetch : Fetched → Fetched) : Value :=
  { v with
    data := (fetch ⟨v.data, v.err⟩).data, err := (fetch ⟨v.data, v.err⟩).err, fetch := none,
    fetchCalls := v.fetchCalls + 1 }

/-- One access to a `Value`: a call of one of its methods. -/
inductive Access where
  | get
  | Scan (obj : List Slot)
  | Reflect
  | Err
  | Interface

/-- What an access returns. -/
inductive Observed where
  | get
  | Scan (r : Except Abort (List Slot × Option Error))
  | Reflect (r : Except Abort (Reflected × Option Error))
  | Err (err : Option Error)
  | Interface (r : Except Abort Reflected)

/-- The value after an access, and what the access returned. -/
def Value.access (v : Value) : Access → Value × Observed
  | .get => (v.get, .get)
  | .Scan obj => ((v.Scan obj).1, .Scan (v.Scan obj).2)
  | .Reflect => (v.Reflect.1, .Reflect v.Reflect.2)
  | .Err => (v.Err.1, .Err v.Err.2)
  | .Interface => (v.Interface.1, .Interface v.Interface.2)

/-- A sequence of accesses in turn: the value after the last, and what each returned. -/
def Value.accesses (v : Value) : List Access → Value × List Observed
  | [] => (v, [])
  | a :: rest =>
    let r := (v.access a).1.accesses rest
    (r.1, (v.access a).2 :: r.2)

/-! ## Concrete instances, used to instantiate the theorems -/

/-- A stand-in for `geohash.Encode`: twelve characters, whatever the coordinates. -/
def demoGeohash : Float64 → Float64 → Bytes :=
  fun _ _ => [115, 48, 48, 48, 48, 48, 48, 48, 48, 48, 48, 48]

/-- A field that is empty when it holds the empty string, the zero integer or +0. -/
def demoField (name : String) (num : Nat) : Field :=
  { Name := name, Num := num,
    isEmpty := fun v =>
      match v with
      | .elem (.str s) => s.length == 0
      | .elem (.bytes b) => b.length == 0
      | .elem (.int n) => n.val == 0
      | .float64 f => f.bits == 0,
    ToInterface := fun b => .elem (.str b) }

/-- An object with the one-field primary key `id` and the fields `email`, `lat`, `long`. -/
def demoObject : Object :=
  { primary := ⟨[1]⟩,
    primaryFields := [demoField "id" 0],
    fields := [("id", demoField "id" 0), ("email", demoField "email" 1),
      ("lat", demoField "lat" 2), ("long", demoField "long" 3)],
    zero := [⟨true, none⟩, ⟨true, none⟩, ⟨true, none⟩, ⟨true, none⟩] }

/-- A unique plain index on `email`. -/
def demoUnique : Index :=
  { Name := "email", Unique := true, Geo := 0, dir := ⟨[7]⟩, object := demoObject,
    field := demoField "email" 1, secondary := demoField "long" 3, handle := none }

/-- A non-unique plain index on `email`. -/
def demoMulti : Index := { demoUnique with Unique := false }

/-- A geo index of precision 6 on `lat` and `long`. -/
def demoGeo : Index := { demoMulti with Geo := 6, field := demoField "lat" 2 }

/-- A record by its `id`, `email`, latitude and longitude. -/
def demoRecord (id : Int64) (email : Bytes) (lat long : Float64) : Struct :=
  { Get := fun f =>
      if f.Num = 0 then .elem (.int id)
      else if f.Num = 1 then .elem (.str email)
      else if f.Num = 2 then .float64 lat
      else .float64 long }

/-- The `int64` 1. -/
def one64 : Int64 := ⟨1, by decide, by decide⟩

/-- The `int64` 2. -/
def two64 : Int64 := ⟨2, by decide, by decide⟩

/-- A transaction on an empty store whose reads succeed. -/
def emptyTxn : Txn := { kv := [], readErr := none, log := [] }

/-- An object whose primary key has no field. -/
def demoObjectNoKey : Object := { demoObject with primaryFields := [] }

/-- A non-unique plain index on `email` of the object without primary key fields. -/
def demoMultiNoKey : Index := { demoMulti with object := demoObjectNoKey }

/-- A chain of one step that sets the value field with `setValueField` and returns `ok()`. -/
def demoValueChain : Chain :=
  Chain.of (fun s => Promise.ok (Promise.setValueField s demoObject (demoField "email" 1) [97]))

/-- A chain of one step that returns `done(true)`. -/
def demoDoneChain : Chain := Chain.of (fun s => Promise.done s (some (.bool true)))

/-- A chain of one step that returns `ok()`. -/
def demoOkChain : Chain := Chain.of (fun s => Promise.ok s)

/-- A chain of one step that returns `fail(ErrNotFound)`. -/
def demoFailChain : Chain := Chain.of (fun s => Promise.fail s (some .ErrNotFound))

/-- A value with a pending fetch that fails with `ErrNotFound`. -/
def demoFailingValue : Value :=
  { object := demoObject, fetch := some (fun r => { r with err := some .ErrNotFound }),
    data := [], err := none, fetchCalls := 0 }

/-- A read-write promise for `demoOkChain` that still holds the error, the value and the
response of an earlier attempt. -/
def demoLeftover : Promise :=
  { readTr := some emptyTxn, tr := some emptyTxn, err := some .ErrNotFound,
    value := some demoFailingValue, resp := some (.bool true), chain := demoOkChain,
    readOnly := false }

/-! ## The tuple layer decodes what it encodes -/

theorem pack_append (a b : Tuple) : pack (a ++ b) = pack a ++ pack b := by
  induction a with
  | nil => rfl
  | cons e t ih => simp [pack, ih]

theorem bisectLeft_spec (u : Nat) (hu : u ≤ 18446744073709551615) :
    bisectLeft u ≤ 8 ∧ u ≤ sizeLimits (bisectLeft u) ∧ (0 < u → 1 ≤ bisectLeft u) := by
  unfold bisectLeft
  simp only [bisectLeftAux, sizeLimits]
  norm_num
  split_ifs <;> omega

theorem length_bigEndian (n v : Nat) : (bigEndian n v).length = n := by
  induction n with
  | zero => rfl
  | succ n ih => simp [bigEndian, ih]

theorem fromBigEndian_bigEndian (n v acc : Nat) :
    fromBigEndian acc (bigEndian n v) = acc * 256 ^ n + v % 256 ^ n := by
  induction n generalizing acc with
  | zero => simp [bigEndian, fromBigEndian, Nat.mod_one]
  | succ n ih =>
    simp only [bigEndian, fromBigEndian, ih]
    rw [Nat.mod_pow_succ (x := v) (b := 256) (k := n)]
    ring

theorem decodeInt_encodeInt (i : Int64) (rest : Bytes) :
    ∃ c body, encodeInt i.val = c :: body ∧ 0x0c ≤ c ∧ c ≤ 0x1c ∧
      decodeInt c (body ++ rest) = some (i, rest) := by
  obtain ⟨v, lo, hi⟩ := i
  unfold encodeInt
  by_cases h0 : v = 0
  · subst h0
    refine ⟨0x14, [], by simp, by decide, by decide, ?_⟩
    simp [decodeInt, fromBigEndian, Int64.ofInt?]
  · by_cases hpos : 0 < v
    · have hu : v.toNat ≤ 18446744073709551615 := by omega
      obtain ⟨h8, hle, h1⟩ := bisectLeft_spec v.toNat hu
      refine ⟨0x14 + bisectLeft v.toNat, bigEndian (bisectLeft v.toNat) v.toNat, by simp [h0, hpos],
        by omega, by omega, ?_⟩
      have hlt : v.toNat < 256 ^ bisectLeft v.toNat := by
        have : 0 < 256 ^ bisectLeft v.toNat := by positivity
        unfold sizeLimits at hle; omega
      simp [decodeInt, length_bigEndian, fromBigEndian_bigEndian, Nat.mod_eq_of_lt hlt,
        Int64.ofInt?, List.take_append_of_le_length, List.drop_append_of_le_length]
      exact ⟨hi, by omega⟩
    · have hneg : v < 0 := by omega
      have hu : (-v).toNat ≤ 18446744073709551615 := by omega
      obtain ⟨h8, hle, h1⟩ := bisectLeft_spec (-v).toNat hu
      have h1' : 1 ≤ bisectLeft (-v).toNat := h1 (by omega)
      refine ⟨0x14 - bisectLeft (-v).toNat,
        bigEndian (bisectLeft (-v).toNat) (sizeLimits (bisectLeft (-v).toNat) - (-v).toNat),
        by simp [h0, hpos], by omega, by omega, ?_⟩
      have hpow : 0 < 256 ^ bisectLeft (-v).toNat := by positivity
      have hlt : sizeLimits (bisectLeft (-v).toNat) - (-v).toNat < 256 ^ bisectLeft (-v).toNat := by
        unfold sizeLimits; omega
      have hn : ¬ (20 ≤ 20 - bisectLeft (-v).toNat) := by omega
      have hn2 : 20 - (20 - bisectLeft (-v).toNat) = bisectLeft (-v).toNat := by omega
      have hr : ((sizeLimits (bisectLeft (-v).toNat) - (-v).toNat : Nat) : Int)
          - (sizeLimits (bisectLeft (-v).toNat) : Int) = v := by omega
      simp [decodeInt, hn, hn2, length_bigEndian, fromBigEndian_bigEndian, Nat.mod_eq_of_lt hlt,
        Int64.ofInt?, List.take_append_of_le_length, List.drop_append_of_le_length, hr, lo, hi]

theorem decodeBytes_escape (b rest : Bytes) (h : rest.head? ≠ some 255) :
    decodeBytes (escape b ++ 0 :: rest) = some (b, rest) := by
  induction b with
  | nil =>
    cases rest with
    | nil => simp [escape, decodeBytes]
    | cons c r =>
      have : c ≠ 255 := by simpa using h
      simp [escape, decodeBytes, this]
  | cons x xs ih =>
    by_cases hx : x = 0
    · subst hx
      simp [escape, decodeBytes, ih]
    · cases hxs : escape xs ++ 0 :: rest with
      | nil => simp at hxs
      | cons c r =>
        simp only [escape, hx, if_false, List.cons_append, hxs, decodeBytes]
        rw [← hxs, ih]
        rfl

theorem encodeElement_head (e : TupleElement) :
    ∃ c body, encodeElement e = c :: body ∧ c < 255 := by
  cases e with
  | bytes b => exact ⟨1, _, rfl, by decide⟩
  | str s => exact ⟨2, _, rfl, by decide⟩
  | int i =>
    obtain ⟨c, body, h, _, h2, _⟩ := decodeInt_encodeInt i []
    exact ⟨c, body, h, by omega⟩

theorem pack_head (t : Tuple) : (pack t).head? ≠ some 255 := by
  cases t with
  | nil => simp [pack]
  | cons e t =>
    obtain ⟨c, body, h, hc⟩ := encodeElement_head e
    simp [pack, h]; omega

theorem decodeElement_encodeElement (e : TupleElement) (rest : Bytes)
    (h : rest.head? ≠ some 255) :
    decodeElement (encodeElement e ++ rest) = some (e, rest) := by
  cases e with
  | bytes b => simp [encodeElement, decodeElement, decodeBytes_escape b rest h]
  | str s => simp [encodeElement, decodeElement, decodeBytes_escape s rest h]
  | int i =>
    obtain ⟨c, body, henc, h1, h2, hdec⟩ := decodeInt_encodeInt i rest
    have hc1 : c ≠ 1 := by omega
    have hc2 : c ≠ 2 := by omega
    simp [encodeElement, henc, decodeElement, hc1, hc2, h1, h2, hdec]

theorem unpackAux_pack (t : Tuple) : ∀ fuel, t.length ≤ fuel → unpackAux fuel (pack t) = some t := by
  induction t with
  | nil => intro fuel _; cases fuel <;> simp [pack, unpackAux]
  | cons e t ih =>
    intro fuel hf
    obtain ⟨c, body, h, _⟩ := encodeElement_head e
    cases fuel with
    | zero => simp at hf
    | succ fuel =>
      have hd := decodeElement_encodeElement e (pack t) (pack_head t)
      rw [h] at hd
      simp only [List.cons_append] at hd
      simp only [pack, h, List.cons_append, unpackAux, hd]
      rw [ih fuel (by simpa using hf)]
      rfl

theorem length_le_pack (t : Tuple) : t.length ≤ (pack t).length := by
  induction t with
  | nil => simp [pack]
  | cons e t ih =>
    obtain ⟨c, body, h, _⟩ := encodeElement_head e
    simp [pack, h]; omega

/-- The tuple layer decodes what it encoded. -/
theorem unpack_pack (t : Tuple) : unpack (pack t) = some t :=
  unpackAux_pack t _ (length_le_pack t)

theorem pack_injective {a b : Tuple} (h : pack a = pack b) : a = b := by
  have := unpack_pack a
  rw [h, unpack_pack] at this
  exact (Option.some.inj this).symm

theorem pack_ne_nil {t : Tuple} (h : t ≠ []) : pack t ≠ [] := by
  intro hp
  exact h (pack_injective (a := t) (b := []) (by simpa [pack] using hp))

/-! ## The key/value operations -/

theorem lookup_filter_key (p : Bytes → Bool) (k : Bytes) (l : List (Bytes × Bytes)) :
    (l.filter (fun e => p e.1)).lookup k = if p k then l.lookup k else none := by
  induction l with
  | nil => simp
  | cons x xs ih =>
    obtain ⟨a, v⟩ := x
    by_cases hpa : p a = true
    · by_cases hka : k = a
      · subst hka; simp [List.filter, hpa, List.lookup]
      · have : (k == a) = false := by simpa using hka
        simp [List.filter, hpa, List.lookup, this, ih]
    · have hpa' : p a = false := by simpa using hpa
      by_cases hka : k = a
      · subst hka; simp [List.filter, hpa', ih]
      · have : (k == a) = false := by simpa using hka
        simp [List.filter, hpa', List.lookup, this, ih]

theorem lookup_Set_self (tr : Txn) (k v : Bytes) : (tr.Set k v).lookup k = v := by
  simp [Txn.Set, Txn.lookup, List.lookup]

theorem lookup_Set_other (tr : Txn) (k v k' : Bytes) (h : k' ≠ k) :
    (tr.Set k v).lookup k' = tr.lookup k' := by
  have hb : (k' == k) = false := by simpa using h
  have := lookup_filter_key (fun a => a != k) k' tr.kv
  simp only [Txn.Set, Txn.lookup, List.lookup, hb]
  rw [this]; simp [h]

theorem lookup_Clear_self (tr : Txn) (k : Bytes) : (tr.Clear k).lookup k = [] := by
  have := lookup_filter_key (fun a => a != k) k tr.kv
  simp only [Txn.Clear, Txn.lookup]
  rw [this]; simp

theorem lookup_Clear_other (tr : Txn) (k k' : Bytes) (h : k' ≠ k) :
    (tr.Clear k).lookup k' = tr.lookup k' := by
  have := lookup_filter_key (fun a => a != k) k' tr.kv
  simp only [Txn.Clear, Txn.lookup]
  rw [this]; simp [h]

theorem lookup_ClearRange_outside (tr : Txn) (b e k : Bytes) (h : inRange b e k = false) :
    (tr.ClearRange b e).lookup k = tr.lookup k := by
  have := lookup_filter_key (fun a => !inRange b e a) k tr.kv
  simp only [Txn.ClearRange, Txn.lookup]
  rw [this]; simp [h]

theorem keyLt_irrefl (a : Bytes) : keyLt a a = false := by
  induction a with
  | nil => rfl
  | cons x xs ih => simp [keyLt, ih]

theorem keyLt_append_left (p a b : Bytes) : keyLt (p ++ a) (p ++ b) = keyLt a b := by
  induction p with
  | nil => rfl
  | cons x xs ih => simp [keyLt, ih]

/-- A key is below every proper extension of it, so the range that `FDBRangeKeys` gives
for a subspace does not hold the prefix of the subspace itself. -/
theorem inRange_prefix_self (p : Bytes) : inRange (p ++ [0x00]) (p ++ [0xFF]) p = false := by
  have h := keyLt_append_left p [] [0x00]
  simp only [List.append_nil] at h
  simp [inRange, keyLe, h, keyLt]
/-! ## `Index.Write` and `Index.Delete` -/

theorem readErr_Get (tr : Txn) (k : Bytes) : (tr.Get k).1.readErr = tr.readErr := rfl

theorem lookup_Get (tr : Txn) (k k' : Bytes) : (tr.Get k).1.lookup k' = tr.lookup k' := rfl

theorem readErr_Set (tr : Txn) (k v : Bytes) : (tr.Set k v).readErr = tr.readErr := rfl

theorem Pack_ne_of_ne (s : Subspace) {a b : Tuple} (h : a ≠ b) : s.Pack a ≠ s.Pack b := by
  intro hp
  exact h (pack_injective (List.append_cancel_left hp))

/-- The unique branch of `Index.writeKey` when the read succeeds. -/
theorem writeKey_unique (i : Index) (tr : Txn) (pk k : Tuple) (hU : i.Unique = true)
    (hread : tr.readErr = none) :
    i.writeKey tr pk (some k) =
      ((tr.Get (i.dir.Pack k)).1.Set (i.dir.Pack k) (pack pk),
        if tr.lookup (i.dir.Pack k) ≠ [] ∧ pack pk ≠ tr.lookup (i.dir.Pack k)
        then some .ErrAlreadyExist else none) := by
  simp only [Index.writeKey, hU, if_true, Txn.Get, hread]
  by_cases h1 : tr.lookup (i.dir.Pack k) = []
  · simp [h1]
  · by_cases h2 : pack pk = tr.lookup (i.dir.Pack k)
    · simp [h1, h2]
    · simp [h1, h2]

/-- C4: when the old and the new record derive the same index key (the same present key, or
both none), `Index.Write` returns nil and hands back the transaction as it was: its
contents and its operation log are unchanged, so no set, clear or read was issued, and
the result is never `ErrAlreadyExist`, whatever the store holds. -/
theorem C4_same_key_is_noop (geohashEncode : Float64 → Float64 → Bytes) (i : Index) (tr : Txn)
    (primaryTuple : Tuple) (input old : Struct) (key : Option Tuple)
    (hnew : i.getKey geohashEncode input = .ok key)
    (hold : i.getKey geohashEncode old = .ok key) :
    i.Write geohashEncode tr primaryTuple input (some old) = .ok (tr, none) := by
  cases key with
  | none => simp [Index.Write, hnew, hold, Index.writeKey]
  | some k => simp [Index.Write, hnew, hold]

theorem C4_same_key_is_noop_witness :
    demoUnique.getKey demoGeohash (demoRecord one64 [97] ⟨0⟩ ⟨0⟩) = .ok (some [.str [97]]) ∧
    demoUnique.getKey demoGeohash (demoRecord two64 [97] ⟨0⟩ ⟨0⟩) = .ok (some [.str [97]]) ∧
    demoUnique.Write demoGeohash ⟨[([7, 2, 97, 0], [21, 2])], none, []⟩ [.int one64]
      (demoRecord one64 [97] ⟨0⟩ ⟨0⟩) (some (demoRecord two64 [97] ⟨0⟩ ⟨0⟩))
      = .ok (⟨[([7, 2, 97, 0], [21, 2])], none, []⟩, none) :=
  ⟨rfl, rfl, C4_same_key_is_noop demoGeohash demoUnique _ _ _ _ (some [.str [97]]) rfl rfl⟩

/-- The result of `Index.Write` when the short cut of line 65 is not taken: the old key, if
any, is deleted, then the new key is written. -/
theorem Write_changed (geohashEncode : Float64 → Float64 → Bytes) (i : Index) (tr : Txn)
    (pk : Tuple) (input old : Struct) (A : Tuple) (key : Option Tuple)
    (hold : i.getKey geohashEncode old = .ok (some A))
    (hnew : i.getKey geohashEncode input = .ok key) (hne : some A ≠ key) :
    i.Write geohashEncode tr pk input (some old) =
      .ok (i.writeKey (i.Delete tr pk (some A)) pk key) := by
  simp [Index.Write, hnew, hold, hne]

theorem Write_no_old (geohashEncode : Float64 → Float64 → Bytes) (i : Index) (tr : Txn)
    (pk : Tuple) (input : Struct) (key : Option Tuple)
    (hnew : i.getKey geohashEncode input = .ok key) :
    i.Write geohashEncode tr pk input none = .ok (i.writeKey tr pk key) := by
  simp [Index.Write, hnew]

theorem Write_old_absent (geohashEncode : Float64 → Float64 → Bytes) (i : Index) (tr : Txn)
    (pk : Tuple) (input old : Struct) (key : Option Tuple)
    (hold : i.getKey geohashEncode old = .ok none)
    (hnew : i.getKey geohashEncode input = .ok key) :
    i.Write geohashEncode tr pk input (some old) = .ok (i.writeKey tr pk key) := by
  simp [Index.Write, hnew, hold]

/-- C1: on a unique index, with reads that succeed and no value stored under the index key
`k` (no entry, or an empty one): writing `R1` under the non-empty primary key `pk1`
returns nil and stores `pack pk1` under `k`; in the state this leaves, writing `R2`
(same index key, a primary key that packs differently) returns `ErrAlreadyExist`, and
writing `R1` under `pk1` again returns nil. And in every state whose reads succeed,
for every record with a present key and every old record that does not take the
short cut of equal keys (none given, none derived, or another key derived), `Write`
returns `ErrAlreadyExist` exactly when the value stored under the key is non-empty
and differs from the packed primary key. -/
theorem C1_unique_conflict (geohashEncode : Float64 → Float64 → Bytes) (i : Index)
    (hU : i.Unique = true) :
    (∀ (tr : Txn) (k pk1 pk2 : Tuple) (R1 R2 : Struct),
      tr.readErr = none → tr.lookup (i.dir.Pack k) = [] →
      i.getKey geohashEncode R1 = .ok (some k) → i.getKey geohashEncode R2 = .ok (some k) →
      pk1 ≠ [] → pk2 ≠ [] → pack pk1 ≠ pack pk2 →
      ∃ tr1, i.Write geohashEncode tr pk1 R1 none = .ok (tr1, none) ∧
        tr1.kv.lookup (i.dir.Pack k) = some (pack pk1) ∧
        (∃ tr2, i.Write geohashEncode tr1 pk2 R2 none = .ok (tr2, some .ErrAlreadyExist)) ∧
        (∃ tr3, i.Write geohashEncode tr1 pk1 R1 none = .ok (tr3, none))) ∧
    (∀ (tr : Txn) (k pk : Tuple) (R : Struct) (oldObject : Option Struct),
      tr.readErr = none → i.getKey geohashEncode R = .ok (some k) →
      (∀ old, oldObject = some old →
        ∃ A, i.getKey geohashEncode old = .ok A ∧ A ≠ some k) →
      ∃ tr1 err, i.Write geohashEncode tr pk R oldObject = .ok (tr1, err) ∧
        (err = some .ErrAlreadyExist ↔
          tr.lookup (i.dir.Pack k) ≠ [] ∧ tr.lookup (i.dir.Pack k) ≠ pack pk)) := by
  constructor
  · intro tr k pk1 pk2 R1 R2 hread hfree h1 h2 hpk1 hpk2 hne
    have hp1 : pack pk1 ≠ [] := pack_ne_nil hpk1
    have hw : ∀ (tr' : Txn) (pk : Tuple) (R : Struct), tr'.readErr = none →
        i.getKey geohashEncode R = .ok (some k) →
        i.Write geohashEncode tr' pk R none =
          .ok ((tr'.Get (i.dir.Pack k)).1.Set (i.dir.Pack k) (pack pk),
            if tr'.lookup (i.dir.Pack k) ≠ [] ∧ pack pk ≠ tr'.lookup (i.dir.Pack k)
            then some .ErrAlreadyExist else none) := by
      intro tr' pk R hr hR
      rw [Write_no_old _ _ _ _ _ _ hR, writeKey_unique i tr' pk k hU hr]
    have hr1 : ((tr.Get (i.dir.Pack k)).1.Set (i.dir.Pack k) (pack pk1)).readErr = none := by
      simpa [Txn.Set, Txn.Get] using hread
    have e1 := hw tr pk1 R1 hread h1
    have e2 := hw _ pk2 R2 hr1 h2
    have e3 := hw _ pk1 R1 hr1 h1
    simp only [hfree, ne_eq, not_true_eq_false, false_and, if_false] at e1
    simp only [lookup_Set_self, ne_eq, hp1, not_false_eq_true, Ne.symm hne, and_self, if_true] at e2
    simp only [lookup_Set_self, ne_eq, not_true_eq_false, and_false, if_false] at e3
    exact ⟨_, e1, by simp [Txn.Set, List.lookup], ⟨_, e2⟩, ⟨_, e3⟩⟩
  · intro tr k pk R oldObject hread hk hold
    have key : ∀ tr' : Txn, tr'.readErr = none → tr'.lookup (i.dir.Pack k) = tr.lookup (i.dir.Pack k) →
        ∃ tr1 err, i.writeKey tr' pk (some k) = (tr1, err) ∧
          (err = some .ErrAlreadyExist ↔
            tr.lookup (i.dir.Pack k) ≠ [] ∧ tr.lookup (i.dir.Pack k) ≠ pack pk) := by
      intro tr' hr hl
      refine ⟨_, _, writeKey_unique i tr' pk k hU hr, ?_⟩
      rw [hl]
      by_cases hc : tr.lookup (i.dir.Pack k) ≠ [] ∧ pack pk ≠ tr.lookup (i.dir.Pack k)
      · simp [hc, Ne.symm hc.2]
      · rw [if_neg hc]
        constructor
        · intro h; cases h
        · intro h; exact absurd ⟨h.1, Ne.symm h.2⟩ hc
    cases oldObject with
    | none =>
      obtain ⟨tr1, err, hw, hiff⟩ := key tr hread rfl
      exact ⟨tr1, err, by rw [Write_no_old _ _ _ _ _ _ hk, hw], hiff⟩
    | some old =>
      obtain ⟨A, hA, hAk⟩ := hold old rfl
      cases A with
      | none =>
        obtain ⟨tr1, err, hw, hiff⟩ := key tr hread rfl
        exact ⟨tr1, err, by rw [Write_old_absent _ _ _ _ _ _ _ hA hk, hw], hiff⟩
      | some A =>
        have hAk' : A ≠ k := fun h => hAk (by rw [h])
        have hl : (i.Delete tr pk (some A)).lookup (i.dir.Pack k) = tr.lookup (i.dir.Pack k) := by
          simp only [Index.Delete, hU, if_true]
          exact lookup_Clear_other tr _ _ (Pack_ne_of_ne i.dir (Ne.symm hAk'))
        have hr : (i.Delete tr pk (some A)).readErr = none := by
          simpa [Index.Delete, hU, Txn.Clear] using hread
        obtain ⟨tr1, err, hw, hiff⟩ := key _ hr hl
        exact ⟨tr1, err, by rw [Write_changed _ _ _ _ _ _ A _ hA hk hAk, hw], hiff⟩
theorem C1_unique_conflict_witness :
    demoUnique.Unique = true ∧ emptyTxn.readErr = none ∧
    emptyTxn.lookup (demoUnique.dir.Pack [.str [97]]) = [] ∧
    demoUnique.getKey demoGeohash (demoRecord one64 [97] ⟨0⟩ ⟨0⟩) = .ok (some [.str [97]]) ∧
    demoUnique.getKey demoGeohash (demoRecord two64 [97] ⟨0⟩ ⟨0⟩) = .ok (some [.str [97]]) ∧
    pack [.int one64] ≠ pack [.int two64] ∧
    (∃ tr1, demoUnique.Write demoGeohash emptyTxn [.int one64]
        (demoRecord one64 [97] ⟨0⟩ ⟨0⟩) none = .ok (tr1, none) ∧
      tr1.kv.lookup (demoUnique.dir.Pack [.str [97]]) = some (pack [.int one64]) ∧
      (∃ tr2, demoUnique.Write demoGeohash tr1 [.int two64]
        (demoRecord two64 [97] ⟨0⟩ ⟨0⟩) none = .ok (tr2, some .ErrAlreadyExist)) ∧
      (∃ tr3, demoUnique.Write demoGeohash tr1 [.int one64]
        (demoRecord one64 [97] ⟨0⟩ ⟨0⟩) none = .ok (tr3, none))) :=
  ⟨rfl, rfl, rfl, rfl, rfl, by decide,
    (C1_unique_conflict demoGeohash demoUnique rfl).1 emptyTxn [.str [97]] [.int one64]
      [.int two64] (demoRecord one64 [97] ⟨0⟩ ⟨0⟩) (demoRecord two64 [97] ⟨0⟩ ⟨0⟩)
      rfl rfl rfl rfl (by decide) (by decide) (by decide)⟩

/-- The unique branch of `Index.getPrimary` when the read succeeds. -/
theorem getPrimary_unique (i : Index) (tr : Txn) (a : TupleElement) (hU : i.Unique = true)
    (hread : tr.readErr = none) :
    (i.getPrimary tr a).2 =
      if tr.lookup (i.dir.Pack [a]) = [] then .error .ErrNotFound
      else match unpack (tr.lookup (i.dir.Pack [a])) with
        | none => .error (.msg "tuple: malformed key")
        | some primaryTuple => .ok (i.object.primary.Sub primaryTuple) := by
  have : (i.dir.Sub [a]).FDBKey = i.dir.Pack [a] := rfl
  simp only [Index.getPrimary, hU, if_true, Txn.Get, this, hread]
  by_cases h : tr.lookup (i.dir.Pack [a]) = []
  · simp [h]
  · have h2 : (tr.lookup (i.dir.Pack [a])).length ≠ 0 := by simpa using h
    simp only [h, h2, if_false]
    cases unpack (tr.lookup (i.dir.Pack [a])) <;> rfl

/-- C3: on a unique index whose reads succeed, with `pack pk` stored under the key of the
value `a` (or whatever else) and nothing under the key of the value `b`, `a ≠ b`, `pk`
non-empty:
`Index.Write` of a record deriving `b` over an old record deriving `a` returns nil;
afterwards `getPrimary` on `a` returns `ErrNotFound` and `getPrimary` on `b` returns
the primary subspace of `pk`. The keys of a plain-field index have this one-value
form. -/
theorem C3_unique_update_moves_entry (geohashEncode : Float64 → Float64 → Bytes) (i : Index)
    (tr : Txn) (pk : Tuple) (input old : Struct) (a b : TupleElement)
    (hU : i.Unique = true) (hread : tr.readErr = none) (hpk : pk ≠ [])
    (hB : tr.lookup (i.dir.Pack [b]) = [])
    (hold : i.getKey geohashEncode old = .ok (some [a]))
    (hnew : i.getKey geohashEncode input = .ok (some [b])) (hab : a ≠ b) :
    ∃ tr1, i.Write geohashEncode tr pk input (some old) = .ok (tr1, none) ∧
      (i.getPrimary tr1 a).2 = .error .ErrNotFound ∧
      (i.getPrimary tr1 b).2 = .ok (i.object.primary.Sub pk) := by
  have hp : pack pk ≠ [] := pack_ne_nil hpk
  have hne : some [a] ≠ some [b] := by simpa using hab
  have hK : i.dir.Pack [a] ≠ i.dir.Pack [b] := Pack_ne_of_ne i.dir (by simpa using hab)
  have hw := Write_changed geohashEncode i tr pk input old [a] (some [b]) hold hnew hne
  have hr : (i.Delete tr pk (some [a])).readErr = none := by
    simpa [Index.Delete, hU, Txn.Clear] using hread
  have hl : (i.Delete tr pk (some [a])).lookup (i.dir.Pack [b]) = [] := by
    simp only [Index.Delete, hU, if_true]
    rw [show (i.dir.Sub [a]).FDBKey = i.dir.Pack [a] from rfl,
      lookup_Clear_other tr _ _ (Ne.symm hK), hB]
  have hla : (i.Delete tr pk (some [a])).lookup (i.dir.Pack [a]) = [] := by
    simp only [Index.Delete, hU, if_true]
    exact lookup_Clear_self tr _
  rw [writeKey_unique i _ pk [b] hU hr] at hw
  simp only [hl, ne_eq, not_true_eq_false, false_and, if_false] at hw
  have hT0r : ((i.Delete tr pk (some [a])).Get (i.dir.Pack [b])).1.readErr = none := hr
  have hT0a : ((i.Delete tr pk (some [a])).Get (i.dir.Pack [b])).1.lookup (i.dir.Pack [a]) = [] :=
    hla
  refine ⟨_, hw, ?_, ?_⟩
  · rw [getPrimary_unique i _ a hU (by rw [readErr_Set]; exact hT0r),
      lookup_Set_other _ _ _ _ hK, hT0a]
    simp
  · rw [getPrimary_unique i _ b hU (by rw [readErr_Set]; exact hT0r), lookup_Set_self]
    simp [hp, unpack_pack]

theorem C3_unique_update_moves_entry_witness :
    demoUnique.Unique = true ∧
    (⟨[([7, 2, 97, 0], [21, 1])], none, []⟩ : Txn).lookup (demoUnique.dir.Pack [.str [97]])
      = pack [.int one64] ∧
    (⟨[([7, 2, 97, 0], [21, 1])], none, []⟩ : Txn).lookup (demoUnique.dir.Pack [.str [98]]) = [] ∧
    demoUnique.getKey demoGeohash (demoRecord one64 [97] ⟨0⟩ ⟨0⟩) = .ok (some [.str [97]]) ∧
    demoUnique.getKey demoGeohash (demoRecord one64 [98] ⟨0⟩ ⟨0⟩) = .ok (some [.str [98]]) ∧
    (∃ tr1, demoUnique.Write demoGeohash ⟨[([7, 2, 97, 0], [21, 1])], none, []⟩ [.int one64]
        (demoRecord one64 [98] ⟨0⟩ ⟨0⟩) (some (demoRecord one64 [97] ⟨0⟩ ⟨0⟩)) = .ok (tr1, none) ∧
      (demoUnique.getPrimary tr1 (.str [97])).2 = .error .ErrNotFound ∧
      (demoUnique.getPrimary tr1 (.str [98])).2 = .ok (demoObject.primary.Sub [.int one64])) :=
  ⟨rfl, rfl, rfl, rfl, rfl,
    C3_unique_update_moves_entry demoGeohash demoUnique ⟨[([7, 2, 97, 0], [21, 1])], none, []⟩
      [.int one64] (demoRecord one64 [98] ⟨0⟩ ⟨0⟩) (demoRecord one64 [97] ⟨0⟩ ⟨0⟩)
      (.str [97]) (.str [98]) rfl rfl (by decide) rfl rfl rfl (by decide)⟩

theorem kv_lookup_Set_self (tr : Txn) (k v : Bytes) : (tr.Set k v).kv.lookup k = some v := by
  simp [Txn.Set, List.lookup]

theorem kv_lookup_Set_other (tr : Txn) (k v k' : Bytes) (h : k' ≠ k) :
    (tr.Set k v).kv.lookup k' = tr.kv.lookup k' := by
  have hb : (k' == k) = false := by simpa using h
  have := lookup_filter_key (fun a => a != k) k' tr.kv
  simp only [Txn.Set, List.lookup, hb]
  rw [this]; simp [h]

theorem kv_lookup_ClearRange_outside (tr : Txn) (b e k : Bytes) (h : inRange b e k = false) :
    (tr.ClearRange b e).kv.lookup k = tr.kv.lookup k := by
  have := lookup_filter_key (fun a => !inRange b e a) k tr.kv
  simp only [Txn.ClearRange]
  rw [this]; simp [h]

/-- The non-unique branch of `Index.Delete` leaves the entry that `Index.Write` stores for
the same index key and primary key: the cleared range starts after that key. -/
theorem Delete_nonunique_keeps (i : Index) (tr : Txn) (pk k : Tuple) (hU : i.Unique = false) :
    (i.Delete tr pk (some k)).kv.lookup (i.dir.Pack (k ++ pk)) =
      tr.kv.lookup (i.dir.Pack (k ++ pk)) := by
  have hkey : i.dir.Pack (k ++ pk) = ((i.dir.Sub k).Sub pk).b := by
    simp [Subspace.Pack, Subspace.Sub, pack_append]
  simp only [Index.Delete, hU, Bool.false_eq_true, if_false, Subspace.FDBRangeKeys, hkey]
  exact kv_lookup_ClearRange_outside tr _ _ _ (inRange_prefix_self _)

/-- C2 (what the code does): on a non-unique index, `Index.Write` stores the entry for
`(A, pk)` under `dir ++ pack (A ++ pk)` with an empty value, and `Index.Delete(pk, A)`
leaves that entry in the store; so `Index.Write` of a record deriving `B` over an old
record deriving `A ≠ B` returns nil with the entries for `(A, pk)` and for `(B, pk)`
both present. -/
theorem C2_nonunique_delete_keeps_entry (geohashEncode : Float64 → Float64 → Bytes) (i : Index)
    (tr : Txn) (pk A B : Tuple) (input old : Struct) (hU : i.Unique = false)
    (hold : i.getKey geohashEncode old = .ok (some A))
    (hnew : i.getKey geohashEncode input = .ok (some B)) (hAB : A ≠ B) :
    (i.writeKey tr pk (some A)).1.kv.lookup (i.dir.Pack (A ++ pk)) = some [] ∧
    (i.Delete (i.writeKey tr pk (some A)).1 pk (some A)).kv.lookup (i.dir.Pack (A ++ pk))
      = some [] ∧
    ∃ tr2, i.Write geohashEncode (i.writeKey tr pk (some A)).1 pk input (some old)
        = .ok (tr2, none) ∧
      tr2.kv.lookup (i.dir.Pack (A ++ pk)) = some [] ∧
      tr2.kv.lookup (i.dir.Pack (B ++ pk)) = some [] := by
  have hw : ∀ (t : Txn) (k : Tuple),
      i.writeKey t pk (some k) = (t.Set (i.dir.Pack (k ++ pk)) [], none) := by
    intro t k; simp [Index.writeKey, hU]
  have h1 : (i.writeKey tr pk (some A)).1.kv.lookup (i.dir.Pack (A ++ pk)) = some [] := by
    rw [hw]; exact kv_lookup_Set_self _ _ _
  have h2 := Delete_nonunique_keeps i (i.writeKey tr pk (some A)).1 pk A hU
  have hne : some A ≠ some B := by simpa using hAB
  have hK : i.dir.Pack (A ++ pk) ≠ i.dir.Pack (B ++ pk) :=
    Pack_ne_of_ne i.dir (fun h => hAB (List.append_cancel_right h))
  have hwr := Write_changed geohashEncode i (i.writeKey tr pk (some A)).1 pk input old A (some B)
    hold hnew hne
  rw [hw (i.Delete (i.writeKey tr pk (some A)).1 pk (some A)) B] at hwr
  refine ⟨h1, h2.trans h1, _, hwr, ?_, ?_⟩
  · rw [kv_lookup_Set_other _ _ _ _ hK, h2, h1]
  · exact kv_lookup_Set_self _ _ _

theorem C2_nonunique_delete_keeps_entry_witness :
    demoMulti.Unique = false ∧
    (demoMulti.writeKey emptyTxn [.int one64] (some [.str [97]])).1.kv
      = [([7, 2, 97, 0, 21, 1], [])] ∧
    (demoMulti.Delete (demoMulti.writeKey emptyTxn [.int one64] (some [.str [97]])).1
      [.int one64] (some [.str [97]])).kv.lookup [7, 2, 97, 0, 21, 1] = some [] ∧
    ∃ tr2, demoMulti.Write demoGeohash
        (demoMulti.writeKey emptyTxn [.int one64] (some [.str [97]])).1 [.int one64]
        (demoRecord one64 [98] ⟨0⟩ ⟨0⟩) (some (demoRecord one64 [97] ⟨0⟩ ⟨0⟩)) = .ok (tr2, none) ∧
      tr2.kv.lookup [7, 2, 97, 0, 21, 1] = some [] ∧
      tr2.kv.lookup [7, 2, 98, 0, 21, 1] = some [] :=
  ⟨rfl, rfl,
    (C2_nonunique_delete_keeps_entry demoGeohash demoMulti emptyTxn [.int one64] [.str [97]]
      [.str [98]] (demoRecord one64 [98] ⟨0⟩ ⟨0⟩) (demoRecord one64 [97] ⟨0⟩ ⟨0⟩) rfl rfl rfl
      (by decide)).2⟩
/-! ## Range reads and `Index.getList` -/

theorem insertRow_perm (r : Bytes × Bytes) (l : List (Bytes × Bytes)) :
    (insertRow r l).Perm (r :: l) := by
  induction l with
  | nil => exact List.Perm.refl _
  | cons x xs ih =>
    simp only [insertRow]
    split
    · exact List.Perm.refl _
    · exact (List.Perm.cons x ih).trans (List.Perm.swap r x xs)

theorem sortRows_perm (l : List (Bytes × Bytes)) : (sortRows l).Perm l := by
  induction l with
  | nil => exact List.Perm.refl _
  | cons x xs ih => exact (insertRow_perm x _).trans (List.Perm.cons x ih)

theorem liveRows_filter_key (p : Bytes → Bool) (l : List (Bytes × Bytes)) :
    liveRows (l.filter (fun e => p e.1)) = (liveRows l).filter (fun e => p e.1) := by
  induction l with
  | nil => rfl
  | cons x xs ih =>
    by_cases hp : p x.1 = true
    · simp only [List.filter_cons, hp, if_true, liveRows, ih, List.filter_filter]
      congr 1
      apply List.filter_congr
      intro e _
      exact Bool.and_comm _ _
    · have hp' : p x.1 = false := by simpa using hp
      simp only [List.filter_cons, hp', liveRows, List.filter_filter]
      simp only [Bool.false_eq_true, if_false]
      rw [ih]
      apply List.filter_congr
      intro e _
      by_cases he : p e.1 = true
      · have : e.1 ≠ x.1 := fun h => by rw [h, hp'] at he; exact absurd he (by decide)
        simp [he, this]
      · have he' : p e.1 = false := by simpa using he
        simp [he']

theorem liveRows_Set (tr : Txn) (k v : Bytes) :
    liveRows (tr.Set k v).kv = (k, v) :: (liveRows tr.kv).filter (fun e => e.1 != k) := by
  simp only [Txn.Set, liveRows]
  rw [liveRows_filter_key (fun a => a != k), List.filter_filter]
  simp

theorem liveRows_subset (l : List (Bytes × Bytes)) : ∀ p ∈ liveRows l, p ∈ l := by
  induction l with
  | nil => intro p hp; simp [liveRows] at hp
  | cons x xs ih =>
    intro p hp
    simp only [liveRows, List.mem_cons, List.mem_filter] at hp
    rcases hp with h | ⟨h, _⟩
    · exact h ▸ List.mem_cons_self _ _
    · exact List.mem_cons_of_mem _ (ih p h)

theorem hasPrefix_append (k p q : Bytes) (h : hasPrefix k (p ++ q) = true) :
    hasPrefix k p = true := by
  induction p generalizing k with
  | nil => cases k <;> rfl
  | cons a p ih =>
    cases k with
    | nil => simp [hasPrefix] at h
    | cons c k =>
      simp only [List.cons_append, hasPrefix, Bool.and_eq_true] at h ⊢
      exact ⟨h.1, ih k h.2⟩

theorem hasPrefix_append_self (p x : Bytes) : hasPrefix (p ++ x) p = true := by
  induction p with
  | nil => cases x <;> rfl
  | cons a p ih => simp [hasPrefix, ih]

theorem drop_prefix (p x : Bytes) : (p ++ x).drop p.length = x := by simp

/-- Every key of the range that `FDBRangeKeys` gives for a prefix starts with the prefix. -/
theorem hasPrefix_of_inRange (s k : Bytes) (h : inRange (s ++ [0x00]) (s ++ [0xFF]) k = true) :
    hasPrefix k s = true := by
  induction s generalizing k with
  | nil => cases k <;> rfl
  | cons a s ih =>
    cases k with
    | nil => simp [inRange, keyLe, keyLt] at h
    | cons c k =>
      simp only [inRange, keyLe, List.cons_append, keyLt, Bool.and_eq_true, Bool.not_eq_true',
        Bool.or_eq_false_iff, Bool.or_eq_true, decide_eq_false_iff_not, decide_eq_true_eq,
        Bool.and_eq_false_imp, beq_iff_eq] at h
      obtain ⟨⟨h1, h2⟩, h3⟩ := h
      rcases h3 with h3 | ⟨h3, h4⟩
      · exact absurd h3 h1
      · subst h3
        have := ih k (by
          simp only [inRange, keyLe, Bool.and_eq_true, Bool.not_eq_true']
          exact ⟨h2 rfl, h4⟩)
        simp [hasPrefix, this]

/-- A proper extension of a prefix whose first added byte is below `0xFF` lies in the range
that `FDBRangeKeys` gives for the prefix. -/
theorem inRange_extension (s : Bytes) (c : Nat) (x : Bytes) (hc : c < 255) :
    inRange (s ++ [0x00]) (s ++ [0xFF]) (s ++ c :: x) = true := by
  simp only [inRange, keyLe, keyLt_append_left, keyLt, Bool.and_eq_true, Bool.not_eq_true',
    Bool.or_eq_false_iff, decide_eq_false_iff_not, Bool.and_false, and_true, Bool.or_false,
    decide_eq_true_eq]
  omega
theorem pack_cons_head {pk : Tuple} (h : pk ≠ []) : ∃ c x, pack pk = c :: x ∧ c < 255 := by
  cases pk with
  | nil => exact absurd rfl h
  | cons e t =>
    obtain ⟨c, body, he, hc⟩ := encodeElement_head e
    exact ⟨c, body ++ pack t, by simp [pack, he], hc⟩

theorem writeKey_nonunique (i : Index) (tr : Txn) (pk k : Tuple) (hU : i.Unique = false) :
    i.writeKey tr pk (some k) = (tr.Set (i.dir.Pack (k ++ pk)) [], none) := by
  simp [Index.writeKey, hU]

theorem Pack_append (s : Subspace) (v pk : Tuple) : s.Pack (v ++ pk) = (s.Sub v).b ++ pack pk := by
  simp [Subspace.Pack, Subspace.Sub, pack_append]

/-- The entries of a non-unique index under the index key `v` after `writeEach`, as the
range read of `getList` sees them before sorting: one new row per record, the newest
first, in front of the rows that were there. -/
theorem writeEach_rows (geohashEncode : Float64 → Float64 → Bytes) (i : Index) (v : Tuple)
    (hU : i.Unique = false) :
    ∀ (recs : List (Tuple × Struct)) (tr : Txn) (rows0 : List (Bytes × Bytes)),
      (∀ r ∈ recs, i.getKey geohashEncode r.2 = .ok (some v)) →
      (∀ r ∈ recs, r.1 ≠ []) →
      (recs.map Prod.fst).Nodup →
      (liveRows tr.kv).filter
        (fun p => inRange ((i.dir.Sub v).b ++ [0x00]) ((i.dir.Sub v).b ++ [0xFF]) p.1) = rows0 →
      (∀ r ∈ recs, ∀ p ∈ rows0, p.1 ≠ i.dir.Pack (v ++ r.1)) →
      ∃ tr1, i.writeEach geohashEncode tr recs = .ok (tr1, none) ∧ tr1.readErr = tr.readErr ∧
        (liveRows tr1.kv).filter
          (fun p => inRange ((i.dir.Sub v).b ++ [0x00]) ((i.dir.Sub v).b ++ [0xFF]) p.1)
          = recs.reverse.map (fun r => (i.dir.Pack (v ++ r.1), ([] : Bytes))) ++ rows0 := by
  intro recs
  induction recs with
  | nil =>
    intro tr rows0 _ _ _ hrows _
    exact ⟨tr, rfl, rfl, by simpa using hrows⟩
  | cons r rest ih =>
    intro tr rows0 hkey hne hnd hrows hfresh
    have hk := hkey r (List.mem_cons_self _ _)
    have hw : i.Write geohashEncode tr r.1 r.2 none
        = .ok (tr.Set (i.dir.Pack (v ++ r.1)) [], none) := by
      rw [Write_no_old _ _ _ _ _ _ hk, writeKey_nonunique i tr r.1 v hU]
    obtain ⟨c, x, hpc, hc⟩ := pack_cons_head (hne r (List.mem_cons_self _ _))
    have hin : inRange ((i.dir.Sub v).b ++ [0x00]) ((i.dir.Sub v).b ++ [0xFF])
        (i.dir.Pack (v ++ r.1)) = true := by
      rw [Pack_append, hpc]; exact inRange_extension _ c x hc
    have hrows1 : (liveRows (tr.Set (i.dir.Pack (v ++ r.1)) []).kv).filter
        (fun p => inRange ((i.dir.Sub v).b ++ [0x00]) ((i.dir.Sub v).b ++ [0xFF]) p.1)
        = (i.dir.Pack (v ++ r.1), []) :: rows0 := by
      rw [liveRows_Set, List.filter_cons]
      simp only [hin, if_true]
      congr 1
      have hcomm : ∀ (P Q : Bytes × Bytes → Bool) (l : List (Bytes × Bytes)),
          (l.filter Q).filter P = (l.filter P).filter Q := by
        intro P Q l
        simp only [List.filter_filter]
        apply List.filter_congr
        intro e _
        exact Bool.and_comm _ _
      rw [hcomm, hrows]
      apply List.filter_eq_self.mpr
      intro p hp
      simpa using hfresh r (List.mem_cons_self _ _) p hp
    have hnd' : (rest.map Prod.fst).Nodup := (List.nodup_cons.mp (by simpa using hnd)).2
    have hnotin : r.1 ∉ rest.map Prod.fst := (List.nodup_cons.mp (by simpa using hnd)).1
    obtain ⟨tr1, h1, h2, h3⟩ := ih (tr.Set (i.dir.Pack (v ++ r.1)) [])
      ((i.dir.Pack (v ++ r.1), []) :: rows0)
      (fun q hq => hkey q (List.mem_cons_of_mem _ hq))
      (fun q hq => hne q (List.mem_cons_of_mem _ hq)) hnd' hrows1
      (by
        intro q hq p hp
        rcases List.mem_cons.mp hp with hp | hp
        · rw [hp]
          apply Pack_ne_of_ne
          intro h
          exact hnotin (by
            rw [List.append_cancel_left h]
            exact List.mem_map_of_mem _ hq)
        · exact hfresh q (List.mem_cons_of_mem _ hq) p hp)
    refine ⟨tr1, ?_, ?_, ?_⟩
    · simp only [Index.writeEach, hw, h1]
    · rw [h2]; rfl
    · rw [h3]; simp

theorem getListRows_ok (sub : Subspace) (n : Nat) (f : Bytes × Bytes → Tuple) :
    ∀ (rows : List (Bytes × Bytes)) (acc : List needObject),
      (∀ row ∈ rows, ∃ t, sub.Unpack row.1 = .ok t ∧ n ≤ t.length ∧
        t.drop (t.length - n) = f row) →
      Index.getListRows sub n rows acc = .ok (acc ++ rows.map (fun r => ⟨f r⟩)) := by
  intro rows
  induction rows with
  | nil => intro acc _; simp [Index.getListRows]
  | cons row rows ih =>
    intro acc h
    obtain ⟨t, ht, hlen, hf⟩ := h row (List.mem_cons_self _ _)
    have hlt : ¬ ((t.length : Int) - (n : Int) < 0) := by omega
    simp only [Index.getListRows, ht, hlt, if_false, hf]
    rw [ih _ (fun r hr => h r (List.mem_cons_of_mem _ hr))]
    simp
/-- C5 (amended): on a non-unique index whose namespace holds no key, with reads that
succeed and a primary key of at least one field: after `Index.Write` with no old
record for each of a list of records that derive the index key `v` and have pairwise
distinct primary keys of the primary key's arity, in any order, `getList` for the
query scoped to `v` without from, limit and reverse returns no error and one handle
per record, and the primary keys of the handles are those of the records. -/
theorem C5_list_returns_every_record (geohashEncode : Float64 → Float64 → Bytes) (i : Index)
    (tr : Txn) (v : Tuple) (recs order : List (Tuple × Struct))
    (hU : i.Unique = false) (hread : tr.readErr = none)
    (hempty : ∀ p ∈ tr.kv, hasPrefix p.1 i.dir.b = false)
    (harity : 0 < i.object.primaryFields.length)
    (hkey : ∀ r ∈ recs, i.getKey geohashEncode r.2 = .ok (some v))
    (hlen : ∀ r ∈ recs, r.1.length = i.object.primaryFields.length)
    (hnd : (recs.map Prod.fst).Nodup)
    (horder : order.Perm recs) :
    ∃ tr1 tr2 handles, i.writeEach geohashEncode tr order = .ok (tr1, none) ∧
      i.getList tr1 ⟨v, none, 0, false⟩ = .ok (tr2, .ok handles) ∧
      handles.length = recs.length ∧
      (handles.map needObject.key).Perm (recs.map Prod.fst) := by
  have hkey' : ∀ r ∈ order, i.getKey geohashEncode r.2 = .ok (some v) :=
    fun r hr => hkey r (horder.mem_iff.mp hr)
  have hlen' : ∀ r ∈ order, r.1.length = i.object.primaryFields.length :=
    fun r hr => hlen r (horder.mem_iff.mp hr)
  have hne' : ∀ r ∈ order, r.1 ≠ [] := by
    intro r hr h
    have := hlen' r hr
    rw [h] at this
    simp at this
    omega
  have hnd' : (order.map Prod.fst).Nodup := (horder.map Prod.fst).nodup_iff.mpr hnd
  have hrows0 : (liveRows tr.kv).filter
      (fun p => inRange ((i.dir.Sub v).b ++ [0x00]) ((i.dir.Sub v).b ++ [0xFF]) p.1) = [] := by
    apply List.filter_eq_nil_iff.mpr
    intro p hp hin
    have h1 := hasPrefix_of_inRange _ _ hin
    have h2 := hasPrefix_append p.1 i.dir.b (pack v) h1
    rw [hempty p (liveRows_subset _ p hp)] at h2
    exact absurd h2 (by decide)
  obtain ⟨tr1, hw, hr1, hrows⟩ := writeEach_rows geohashEncode i v hU order tr [] hkey' hne' hnd'
    hrows0 (by intro _ _ p hp; simp at hp)
  rw [List.append_nil] at hrows
  have hr1' : tr1.readErr = none := hr1.trans hread
  let f : Bytes × Bytes → Tuple := fun row =>
    match unpack (row.1.drop (i.dir.Sub v).b.length) with
    | some t => t
    | none => []
  have hfK : ∀ r : Tuple × Struct, f (i.dir.Pack (v ++ r.1), ([] : Bytes)) = r.1 := by
    intro r
    simp only [f, Pack_append, drop_prefix, unpack_pack]
  have hrowsok : ∀ row ∈ sortRows ((liveRows tr1.kv).filter
      (fun p => inRange ((i.dir.Sub v).b ++ [0x00]) ((i.dir.Sub v).b ++ [0xFF]) p.1)),
      ∃ t, (i.dir.Sub v).Unpack row.1 = .ok t ∧ i.object.primaryFields.length ≤ t.length ∧
        t.drop (t.length - i.object.primaryFields.length) = f row := by
    intro row hrow
    have hmem := (sortRows_perm _).mem_iff.mp hrow
    rw [hrows] at hmem
    obtain ⟨r, hr, rfl⟩ := List.mem_map.mp hmem
    have hr' : r ∈ order := List.mem_reverse.mp hr
    refine ⟨r.1, ?_, ?_, ?_⟩
    · simp only [Subspace.Unpack, Pack_append, hasPrefix_append_self, if_true, drop_prefix,
        unpack_pack]
    · rw [hlen' r hr']
    · rw [hfK, hlen' r hr']; simp
  have hgl := getListRows_ok (i.dir.Sub v) i.object.primaryFields.length f _ [] hrowsok
  have hget : i.getList tr1 ⟨v, none, 0, false⟩ =
      .ok ((tr1.GetRange ((i.dir.Sub v).b ++ [0x00]) ((i.dir.Sub v).b ++ [0xFF]) 0 false).1,
        .ok ([] ++ (sortRows ((liveRows tr1.kv).filter
          (fun p => inRange ((i.dir.Sub v).b ++ [0x00]) ((i.dir.Sub v).b ++ [0xFF]) p.1))).map
            (fun r => (⟨f r⟩ : needObject)))) := by
    simp only [Index.getList, hU, Bool.false_eq_true, if_false, Subspace.FDBRangeKeys,
      Txn.GetRange, hr1', if_true]
    rw [hgl]
  refine ⟨tr1, _, _, hw, hget, ?_, ?_⟩
  · simp only [List.nil_append, List.length_map]
    rw [(sortRows_perm _).length_eq, hrows]
    simp [horder.length_eq]
  · simp only [List.nil_append, List.map_map]
    have hp1 := (sortRows_perm ((liveRows tr1.kv).filter
      (fun p => inRange ((i.dir.Sub v).b ++ [0x00]) ((i.dir.Sub v).b ++ [0xFF]) p.1))).map
        (needObject.key ∘ fun r => ⟨f r⟩)
    refine hp1.trans ?_
    rw [hrows, List.map_map]
    have : (order.reverse.map ((needObject.key ∘ fun r => (⟨f r⟩ : needObject)) ∘
        fun r => (i.dir.Pack (v ++ r.1), ([] : Bytes)))) = order.reverse.map Prod.fst := by
      apply List.map_congr_left
      intro r _
      simp only [Function.comp, hfK]
    rw [this]
    exact ((List.reverse_perm order).map Prod.fst).trans (horder.map Prod.fst)

theorem C5_list_returns_every_record_witness :
    demoMulti.Unique = false ∧ emptyTxn.readErr = none ∧ emptyTxn.kv = [] ∧
    0 < demoMulti.object.primaryFields.length ∧
    demoMulti.getKey demoGeohash (demoRecord one64 [97] ⟨0⟩ ⟨0⟩) = .ok (some [.str [97]]) ∧
    demoMulti.getKey demoGeohash (demoRecord two64 [97] ⟨0⟩ ⟨0⟩) = .ok (some [.str [97]]) ∧
    ∃ tr1 tr2 handles,
      demoMulti.writeEach demoGeohash emptyTxn
        [([.int two64], demoRecord two64 [97] ⟨0⟩ ⟨0⟩),
          ([.int one64], demoRecord one64 [97] ⟨0⟩ ⟨0⟩)] = .ok (tr1, none) ∧
      demoMulti.getList tr1 ⟨[.str [97]], none, 0, false⟩ = .ok (tr2, .ok handles) ∧
      handles.length = 2 ∧
      (handles.map needObject.key).Perm [[.int one64], [.int two64]] :=
  ⟨rfl, rfl, rfl, by decide, rfl, rfl,
    C5_list_returns_every_record demoGeohash demoMulti emptyTxn [.str [97]]
      [([.int one64], demoRecord one64 [97] ⟨0⟩ ⟨0⟩), ([.int two64], demoRecord two64 [97] ⟨0⟩ ⟨0⟩)]
      [([.int two64], demoRecord two64 [97] ⟨0⟩ ⟨0⟩), ([.int one64], demoRecord one64 [97] ⟨0⟩ ⟨0⟩)]
      rfl rfl (by intro p hp; cases hp) (by decide)
      (by intro r hr; simp only [List.mem_cons, List.mem_singleton, List.not_mem_nil, or_false] at hr
          rcases hr with rfl | rfl <;> rfl)
      (by intro r hr; simp only [List.mem_cons, List.mem_singleton, List.not_mem_nil, or_false] at hr
          rcases hr with rfl | rfl <;> rfl)
      (by decide) (List.Perm.swap _ _ _)⟩

/-- C5 as stated fails when the primary key has no field: the one record with the empty
primary key is written under `dir ++ pack v` itself, which the range read of `getList`
starts after, so `getList` returns no handle for one record. -/
theorem C5_counterexample_empty_primary_key :
    demoMultiNoKey.Unique = false ∧ emptyTxn.readErr = none ∧ emptyTxn.kv = [] ∧
    demoMultiNoKey.getKey demoGeohash (demoRecord one64 [97] ⟨0⟩ ⟨0⟩) = .ok (some [.str [97]]) ∧
    ([] : Tuple).length = demoMultiNoKey.object.primaryFields.length ∧
    demoMultiNoKey.writeEach demoGeohash emptyTxn [([], demoRecord one64 [97] ⟨0⟩ ⟨0⟩)]
      = .ok (⟨[([7, 2, 97, 0], [])], none, [.set [7, 2, 97, 0] []]⟩, none) ∧
    demoMultiNoKey.getList ⟨[([7, 2, 97, 0], [])], none, [.set [7, 2, 97, 0] []]⟩
        ⟨[.str [97]], none, 0, false⟩
      = .ok (⟨[([7, 2, 97, 0], [])], none,
          [.getRange [7, 2, 97, 0, 0] [7, 2, 97, 0, 255] 0 false, .set [7, 2, 97, 0] []]⟩,
        .ok []) :=
  ⟨rfl, rfl, rfl, rfl, rfl, rfl, rfl⟩
/-! ## `Index.getKey` in geo mode -/

/-- C6 (amended): for a geo index of precision `P` from 1 to 12 without handle, a record
with latitude `lat` and longitude `long`, and a geohash of 12 characters: `getKey`
returns nil exactly when the emptiness predicate of the latitude field reports `lat`
empty or `lat` and `long` are both zero; in every other case it returns the
one-element key with the geohash, cut to its first `P` characters when `P < 12`
(which are `P` characters) and whole when `P = 12`. -/
theorem C6_geo_key (geohashEncode : Float64 → Float64 → Bytes) (i : Index) (input : Struct)
    (lat long : Float64) (hh : i.handle = none) (hP1 : 1 ≤ i.Geo) (hP12 : i.Geo ≤ 12)
    (hlat : input.Get i.field = .float64 lat) (hlong : input.Get i.secondary = .float64 long)
    (hlen : (geohashEncode lat long).length = 12) :
    ∃ key, i.getKey geohashEncode input = .ok key ∧
      (key = none ↔
        (i.field.isEmpty (.float64 lat) = true ∨ (lat.isZero = true ∧ long.isZero = true))) ∧
      (key ≠ none → i.Geo < 12 →
        key = some [.str ((geohashEncode lat long).take i.Geo.toNat)] ∧
        ((geohashEncode lat long).take i.Geo.toNat).length = i.Geo.toNat) ∧
      (key ≠ none → i.Geo = 12 → key = some [.str (geohashEncode lat long)]) := by
  have hG : i.Geo ≠ 0 := by omega
  by_cases hE : i.field.isEmpty (.float64 lat) = true
  · exact ⟨none, by simp [Index.getKey, hh, hlat, hE], by simp [hE], by simp, by simp⟩
  · by_cases hZ : lat.isZero = true ∧ long.isZero = true
    · refine ⟨none, ?_, by simp [hZ], by simp, by simp⟩
      simp [Index.getKey, hh, hlat, hlong, hE, hG, hZ.1, hZ.2]
    · have hZ' : (lat.isZero && long.isZero) = false := by
        cases h1 : lat.isZero <;> cases h2 : long.isZero <;> simp_all
      by_cases hlt : i.Geo < 12
      · have hb : 0 ≤ i.Geo ∧ i.Geo ≤ ((geohashEncode lat long).length : Int) := by
          rw [hlen]; omega
        refine ⟨some [.str ((geohashEncode lat long).take i.Geo.toNat)], ?_, ?_, ?_, ?_⟩
        · simp only [Index.getKey, hh, hlat, hlong]
          simp [hE, hG, hZ', hlt, hb]
        · simp [hE, hZ]
        · intro _ _
          refine ⟨rfl, ?_⟩
          rw [List.length_take, hlen]; omega
        · intro _ h12; omega
      · have h12 : i.Geo = 12 := by omega
        refine ⟨some [.str (geohashEncode lat long)], ?_, ?_, ?_, ?_⟩
        · simp only [Index.getKey, hh, hlat, hlong]
          simp [hE, hG, hZ', hlt]
        · simp [hE, hZ]
        · intro _ h; exact absurd h hlt
        · intro _ _; rfl

theorem C6_geo_key_witness :
    demoGeo.handle = none ∧ demoGeo.Geo = 6 ∧
    (demoGeohash ⟨4630826316843712512⟩ ⟨4617315517961601024⟩).length = 12 ∧
    ∃ key, demoGeo.getKey demoGeohash (demoRecord one64 [97] ⟨4630826316843712512⟩
        ⟨4617315517961601024⟩) = .ok key ∧
      (key = none ↔
        (demoGeo.field.isEmpty (.float64 ⟨4630826316843712512⟩) = true ∨
          (Float64.isZero ⟨4630826316843712512⟩ = true ∧
            Float64.isZero ⟨4617315517961601024⟩ = true))) ∧
      (key ≠ none → demoGeo.Geo < 12 →
        key = some [.str ((demoGeohash ⟨4630826316843712512⟩ ⟨4617315517961601024⟩).take
          demoGeo.Geo.toNat)] ∧
        ((demoGeohash ⟨4630826316843712512⟩ ⟨4617315517961601024⟩).take
          demoGeo.Geo.toNat).length = demoGeo.Geo.toNat) ∧
      (key ≠ none → demoGeo.Geo = 12 →
        key = some [.str (demoGeohash ⟨4630826316843712512⟩ ⟨4617315517961601024⟩)]) :=
  ⟨rfl, rfl, rfl,
    C6_geo_key demoGeohash demoGeo (demoRecord one64 [97] ⟨4630826316843712512⟩
      ⟨4617315517961601024⟩) ⟨4630826316843712512⟩ ⟨4617315517961601024⟩ rfl (by decide)
      (by decide) rfl rfl rfl⟩

/-- C6 as stated fails where the emptiness predicate of the latitude field reports a
latitude empty: with latitude +0 and longitude 5.0 (bits `0x4014000000000000`), which
are not both zero, and a field that is empty at +0, `getKey` returns nil. -/
theorem C6_counterexample_empty_latitude :
    demoGeo.handle = none ∧ demoGeo.Geo = 6 ∧
    Float64.isZero ⟨0⟩ = true ∧ Float64.isZero ⟨4617315517961601024⟩ = false ∧
    demoGeo.field.isEmpty (.float64 ⟨0⟩) = true ∧
    demoGeo.getKey demoGeohash (demoRecord one64 [97] ⟨0⟩ ⟨4617315517961601024⟩) = .ok none :=
  ⟨rfl, rfl, rfl, rfl, rfl, rfl⟩
/-! ## `Promise`: attempts, retries and accessors -/

/-- An attempt depends on the chain, on the read-only flag and, for a read-only promise,
on the `tr` field; on nothing else the promise holds. -/
theorem attempt_congr (p q : Promise) (tr : Txn) (hc : p.chain = q.chain)
    (hr : p.readOnly = q.readOnly) (ht : p.readOnly = true → p.tr = q.tr) :
    p.attempt tr = q.attempt tr := by
  obtain ⟨⟨prt, ptr, pe, pv, pr⟩, pc, pro⟩ := p
  obtain ⟨⟨qrt, qtr, qe, qv, qr⟩, qc, qro⟩ := q
  simp only at hc hr ht
  subst hc hr
  cases pro with
  | true =>
    have := ht rfl
    subst this
    rfl
  | false => rfl

theorem attempt_keeps_chain (p p' : Promise) (tr : Txn) (r : Option Resp × Option Error)
    (h : p.attempt tr = .ok (p', r)) : p'.chain = p.chain ∧ p'.readOnly = p.readOnly := by
  unfold Promise.attempt Promise.execute at h
  cases hro : p.readOnly <;> cases hc : p.chain <;>
    simp [hro, hc, Promise.clear] at h
  all_goals
    obtain ⟨h1, _⟩ := h
    subst h1
    simp [hro, hc]

/-- What an attempt leaves and returns is the final state of the trampoline. -/
theorem attempt_result (p p' : Promise) (tr : Txn) (resp : Option Resp) (err : Option Error)
    (h : p.attempt tr = .ok (p', resp, err)) : p'.resp = resp ∧ p'.err = err := by
  unfold Promise.attempt Promise.execute at h
  cases hro : p.readOnly <;> cases hc : p.chain <;>
    simp [hro, hc, Promise.clear] at h
  all_goals
    obtain ⟨h1, h2, h3⟩ := h
    subst h1
    exact ⟨h2, h3⟩

theorem run_keeps (R : PState → PState → Prop) (hrefl : ∀ s, R s s)
    (htrans : ∀ a b c, R a b → R b c → R a c) :
    ∀ (c : Chain) (s : PState), c.StepsKeep R → R s (c.run s) := by
  intro c
  induction c with
  | nil => intro s _; exact hrefl s
  | step f next ih =>
    intro s h
    obtain ⟨h1, h2⟩ := h s
    exact htrans _ _ _ h1 (ih s (f s) h2)

/-- An attempt on a chain whose steps keep the relation `R` to the state they start in
ends in a state related by `R` to the cleared state the attempt started in. -/
theorem attempt_keeps (R : PState → PState → Prop) (hrefl : ∀ s, R s s)
    (htrans : ∀ a b c, R a b → R b c → R a c) (p : Promise) (tr : Txn)
    (f : PState → PState) (next : PState → Chain) (hc : p.chain = .step f next)
    (hk : p.chain.StepsKeep R) :
    ∃ p' s0, p.attempt tr = .ok (p', p'.resp, p'.err) ∧ R s0 p'.toPState ∧
      s0.err = none ∧ s0.value = none ∧ s0.resp = none := by
  have hk' : (Chain.step f next).StepsKeep R := hc ▸ hk
  unfold Promise.attempt Promise.execute
  cases hro : p.readOnly
  · simp only [Bool.false_eq_true, if_false, Promise.clear, hc]
    exact ⟨_, _, rfl, run_keeps R hrefl htrans (.step f next) _ hk', rfl, rfl, rfl⟩
  · simp only [if_true, Promise.clear, hc]
    exact ⟨_, _, rfl, run_keeps R hrefl htrans (.step f next) _ hk', rfl, rfl, rfl⟩

/-- C7: one attempt of `Promise.transact` does not depend on what the fields `err`, `value`
and `resp` held before: it gives the result (promise left, response, error) it gives
when they are nil, which for a promise with a transaction handle `tr` that is nil or
overwritten is the result of the same chain on a promise made from the zero value by
`do` or `doRead`; and after any number of retried attempts a read-write promise
returns what one attempt on such a new promise returns. If no step of the chain
changes `err`, `value` or `resp`, the attempt returns a nil response and a nil error
and leaves a nil value. -/
theorem C7_attempt_starts_clean (p : Promise) (tr : Txn) :
    (∀ (err : Option Error) (value : Option Value) (resp : Option Resp),
      ({ p with err := err, value := value, resp := resp } : Promise).attempt tr
        = ({ p with err := none, value := none, resp := none } : Promise).attempt tr) ∧
    (p.readOnly = false → p.attempt tr = (Promise.zero.do p.chain).attempt tr) ∧
    (p.readOnly = true → p.tr = none →
      p.attempt tr = (Promise.zero.doRead p.chain).attempt tr) ∧
    (p.readOnly = false →
      ∀ aborted, p.transact aborted tr = (Promise.zero.do p.chain).attempt tr) ∧
    (∀ f next, p.chain = .step f next →
      p.chain.StepsKeep (fun s s' => s'.err = s.err ∧ s'.value = s.value ∧ s'.resp = s.resp) →
      ∃ p', p.attempt tr = .ok (p', none, none) ∧ p'.value = none) := by
  refine ⟨?_, ?_, ?_, ?_, ?_⟩
  · intro err value resp
    exact attempt_congr _ _ tr rfl rfl (fun _ => rfl)
  · intro hro
    exact attempt_congr _ _ tr rfl hro (fun h => by rw [hro] at h; cases h)
  · intro hro htr
    exact attempt_congr _ _ tr rfl hro (fun _ => htr)
  · intro hro aborted
    induction aborted generalizing p with
    | nil => exact attempt_congr _ _ tr rfl hro (fun h => by rw [hro] at h; cases h)
    | cons t rest ih =>
      simp only [Promise.transact]
      cases h : p.attempt t with
      | error a =>
        have hz := attempt_congr p (Promise.zero.do p.chain) t rfl hro
          (fun h => by rw [hro] at h; cases h)
        rw [h] at hz
        unfold Promise.attempt Promise.execute at hz ⊢
        cases hc : p.chain with
        | nil => simp [Promise.do, Promise.zero, hc] at hz ⊢; exact hz
        | step f next => simp [Promise.do, Promise.zero, hc, Promise.clear] at hz
      | ok r =>
        obtain ⟨p', resp, err⟩ := r
        obtain ⟨hc, hr⟩ := attempt_keeps_chain p p' t _ h
        simp only []
        rw [ih p' (hr.trans hro), hc]
  · intro f next hc hk
    obtain ⟨p', s0, h, ⟨h1, h2, h3⟩, e1, e2, e3⟩ := attempt_keeps
      (fun s s' => s'.err = s.err ∧ s'.value = s.value ∧ s'.resp = s.resp)
      (fun s => ⟨rfl, rfl, rfl⟩)
      (fun a b c hab hbc => ⟨hbc.1.trans hab.1, hbc.2.1.trans hab.2.1, hbc.2.2.trans hab.2.2⟩)
      p tr f next hc hk
    refine ⟨p', ?_, h2.trans e2⟩
    rw [h, h3.trans e3, h1.trans e1]
theorem C7_attempt_starts_clean_witness :
    (demoLeftover.attempt emptyTxn = (Promise.zero.do demoOkChain).attempt emptyTxn) ∧
    ∃ p', demoLeftover.attempt emptyTxn = .ok (p', none, none) ∧ p'.value = none :=
  ⟨(C7_attempt_starts_clean demoLeftover emptyTxn).2.1 rfl,
    (C7_attempt_starts_clean demoLeftover emptyTxn).2.2.2.2 _ _ rfl
      (fun _ => ⟨⟨rfl, rfl, rfl⟩, trivial⟩)⟩

theorem transact_keeps_chain (p : Promise) (tr : Txn) :
    ∀ (aborted : List Txn) (p' : Promise) (r : Option Resp × Option Error),
      p.transact aborted tr = .ok (p', r) → p'.chain = p.chain ∧ p'.readOnly = p.readOnly := by
  intro aborted
  induction aborted generalizing p with
  | nil => intro p' r h; exact attempt_keeps_chain p p' tr r h
  | cons t rest ih =>
    intro p' r h
    simp only [Promise.transact] at h
    cases ha : p.attempt t with
    | error a => rw [ha] at h; cases h
    | ok q =>
      obtain ⟨q, qr⟩ := q
      rw [ha] at h
      obtain ⟨h1, h2⟩ := ih q p' r h
      obtain ⟨h3, h4⟩ := attempt_keeps_chain p q t _ ha
      exact ⟨h1.trans h3, h2.trans h4⟩

/-- The last attempt of `transact` is an attempt of a promise with the same chain. -/
theorem transact_last (p : Promise) (tr : Txn) :
    ∀ (aborted : List Txn) (res : Promise × Option Resp × Option Error),
      p.transact aborted tr = .ok res →
      ∃ q : Promise, q.chain = p.chain ∧ q.readOnly = p.readOnly ∧ q.attempt tr = .ok res := by
  intro aborted
  induction aborted generalizing p with
  | nil => intro res h; exact ⟨p, rfl, rfl, h⟩
  | cons t rest ih =>
    intro res h
    simp only [Promise.transact] at h
    cases ha : p.attempt t with
    | error a => rw [ha] at h; cases h
    | ok q =>
      obtain ⟨q, qr⟩ := q
      rw [ha] at h
      obtain ⟨q', h1, h2, h3⟩ := ih q res h
      obtain ⟨h4, h5⟩ := attempt_keeps_chain p q t _ ha
      exact ⟨q', h1.trans h4, h2.trans h5, h3⟩

/-- C8 (amended): when the last attempt ends with an outcome error, `Promise.Scan` returns
that error and leaves the target as it was; when it ends with no error and no value,
`Promise.Scan` panics; when it ends with no error and a value, `Promise.Scan` returns
what `Value.Scan` returns for the target. So `Scan` on a chain none of whose steps
changes `err` or `value` (it may call `done`, it does not call `fail` or set a value)
panics, whatever attempts were retried before. -/
theorem C8_scan_outcomes (p : Promise) (aborted : List Txn) (tr : Txn) (obj : List Slot) :
    (∀ p' resp err, p.transact aborted tr = .ok (p', resp, some err) →
      p.Scan aborted tr obj = .ok (p', obj, some err)) ∧
    (∀ p' resp, p.transact aborted tr = .ok (p', resp, none) → p'.value = none →
      p.Scan aborted tr obj
        = .error (.panic "Scan couldn't be triggered because promise has no Value")) ∧
    (∀ p' resp value, p.transact aborted tr = .ok (p', resp, none) → p'.value = some value →
      p.Scan aborted tr obj =
        match value.Scan obj with
        | (_, .error a) => .error a
        | (value, .ok (object, err)) => .ok ({ p' with value := some value }, object, err)) ∧
    (∀ f next, p.chain = .step f next →
      p.chain.StepsKeep (fun s s' => s'.err = s.err ∧ s'.value = s.value) →
      p.Scan aborted tr obj
        = .error (.panic "Scan couldn't be triggered because promise has no Value")) := by
  have hA : ∀ p' resp err, p.transact aborted tr = .ok (p', resp, some err) →
      p.Scan aborted tr obj = .ok (p', obj, some err) := by
    intro p' resp err h
    simp [Promise.Scan, h]
  have hB : ∀ p' resp, p.transact aborted tr = .ok (p', resp, none) → p'.value = none →
      p.Scan aborted tr obj
        = .error (.panic "Scan couldn't be triggered because promise has no Value") := by
    intro p' resp h hv
    simp [Promise.Scan, h, hv]
  refine ⟨hA, hB, ?_, ?_⟩
  · intro p' resp value h hv
    simp only [Promise.Scan, h, hv]
  · intro f next hc hk
    cases ht : p.transact aborted tr with
    | error a =>
      exfalso
      clear hA hB
      induction aborted generalizing p with
      | nil =>
        obtain ⟨p', s0, h, _⟩ := attempt_keeps _ (fun s => ⟨rfl, rfl⟩)
          (fun a b c hab hbc => ⟨hbc.1.trans hab.1, hbc.2.trans hab.2⟩) p tr f next hc hk
        simp only [Promise.transact] at ht
        rw [h] at ht; cases ht
      | cons t rest ih =>
        obtain ⟨p', s0, h, _⟩ := attempt_keeps _ (fun s => ⟨rfl, rfl⟩)
          (fun a b c hab hbc => ⟨hbc.1.trans hab.1, hbc.2.trans hab.2⟩) p t f next hc hk
        simp only [Promise.transact, h] at ht
        obtain ⟨h1, _⟩ := attempt_keeps_chain p p' t _ h
        exact ih p' (h1.trans hc) (h1 ▸ hk) ht
    | ok res =>
      obtain ⟨p', resp, err⟩ := res
      obtain ⟨q, hq1, hq2, hq3⟩ := transact_last p tr aborted _ ht
      obtain ⟨q', s0, h, ⟨h1, h2⟩, e1, e2, _⟩ := attempt_keeps _ (fun s => ⟨rfl, rfl⟩)
        (fun a b c hab hbc => ⟨hbc.1.trans hab.1, hbc.2.trans hab.2⟩) q tr f next
        (hq1.trans hc) (hq1 ▸ hk)
      rw [h] at hq3
      simp only [Except.ok.injEq, Prod.mk.injEq] at hq3
      obtain ⟨hp, _, herr⟩ := hq3
      subst hp
      have herr' : err = none := by rw [← herr, h1, e1]
      subst herr'
      exact hB q' resp ht (h2.trans e2)
theorem C8_scan_outcomes_witness :
    (Promise.zero.do demoFailChain).transact [emptyTxn] emptyTxn
      = .ok ({ Promise.zero with
                chain := demoFailChain, tr := some emptyTxn, readTr := some emptyTxn,
                err := some .ErrNotFound }, none, some .ErrNotFound) ∧
    (Promise.zero.do demoFailChain).Scan [emptyTxn] emptyTxn demoObject.zero
      = .ok ({ Promise.zero with
                chain := demoFailChain, tr := some emptyTxn, readTr := some emptyTxn,
                err := some .ErrNotFound }, demoObject.zero, some .ErrNotFound) ∧
    (Promise.zero.do demoDoneChain).Scan [emptyTxn] emptyTxn demoObject.zero
      = .error (.panic "Scan couldn't be triggered because promise has no Value") :=
  ⟨rfl,
    (C8_scan_outcomes (Promise.zero.do demoFailChain) [emptyTxn] emptyTxn demoObject.zero).1
      _ _ _ rfl,
    (C8_scan_outcomes (Promise.zero.do demoDoneChain) [emptyTxn] emptyTxn
      demoObject.zero).2.2.2 _ _ rfl (fun _ => ⟨⟨rfl, rfl⟩, trivial⟩)⟩

/-- C8 as stated fails: the chain whose one step sets the value field with
`setValueField` and returns `ok()` calls neither `done` nor `fail` (no step changes
`err` or `resp`), and `Promise.Scan` on it returns nil with the field copied into the
target instead of panicking. -/
theorem C8_counterexample_value_without_done :
    demoValueChain.StepsKeep (fun s s' => s'.err = s.err ∧ s'.resp = s.resp) ∧
    ∃ p', (Promise.zero.do demoValueChain).Scan [] emptyTxn demoObject.zero
      = .ok (p', [⟨true, none⟩, ⟨true, some (.elem (.str [97]))⟩, ⟨true, none⟩, ⟨true, none⟩],
          none) :=
  ⟨fun _ => ⟨⟨rfl, rfl⟩, trivial⟩, ⟨_, rfl⟩⟩

/-- C9: with the response `resp` and the error `err` that the last attempt returned:
`Promise.Bool` returns false and the error when `err` is set, whatever `resp` is;
with `err` nil it panics when `resp` is nil, returns the boolean and nil when `resp`
is a bool, and otherwise returns false and the error "promise value is not bool"
without panicking. `Promise.Int64` does the same with int64 for bool and 0 for false. -/
theorem C9_scalar_accessors (p p' : Promise) (aborted : List Txn) (tr : Txn)
    (resp : Option Resp) (err : Option Error)
    (h : p.transact aborted tr = .ok (p', resp, err)) :
    (∀ e, err = some e →
      p.Bool aborted tr = .ok (p', false, some e) ∧
      p.Int64 aborted tr = .ok (p', 0, some e)) ∧
    (err = none → resp = none →
      p.Bool aborted tr = .error (.panic "promise does not contain any value, use Scan") ∧
      p.Int64 aborted tr = .error (.panic "promise does not contain any value, use Scan")) ∧
    (err = none → ∀ b, resp = some (.bool b) → p.Bool aborted tr = .ok (p', b, none)) ∧
    (err = none → ∀ n, resp = some (.int64 n) → p.Int64 aborted tr = .ok (p', n.val, none)) ∧
    (err = none → ∀ r, resp = some r → (∀ b, r ≠ .bool b) →
      p.Bool aborted tr = .ok (p', false, some (.msg "promise value is not bool"))) ∧
    (err = none → ∀ r, resp = some r → (∀ n, r ≠ .int64 n) →
      p.Int64 aborted tr = .ok (p', 0, some (.msg "promise value is not int64"))) := by
  refine ⟨?_, ?_, ?_, ?_, ?_, ?_⟩
  · intro e he; subst he
    exact ⟨by simp [Promise.Bool, h], by simp [Promise.Int64, h]⟩
  · intro he hr; subst he hr
    exact ⟨by simp [Promise.Bool, h], by simp [Promise.Int64, h]⟩
  · intro he b hr; subst he hr
    simp [Promise.Bool, h]
  · intro he n hr; subst he hr
    simp [Promise.Int64, h]
  · intro he r hr hb; subst he hr
    cases r with
    | bool b => exact absurd rfl (hb b)
    | int64 n => simp [Promise.Bool, h]
    | other t => simp [Promise.Bool, h]
  · intro he r hr hn; subst he hr
    cases r with
    | bool b => simp [Promise.Int64, h]
    | int64 n => exact absurd rfl (hn n)
    | other t => simp [Promise.Int64, h]

theorem C9_scalar_accessors_witness :
    (Promise.zero.do demoDoneChain).Bool [] emptyTxn
      = .ok ({ Promise.zero with
                chain := demoDoneChain, tr := some emptyTxn, readTr := some emptyTxn,
                resp := some (.bool true) }, true, none) ∧
    (Promise.zero.do demoDoneChain).Int64 [] emptyTxn
      = .ok ({ Promise.zero with
                chain := demoDoneChain, tr := some emptyTxn, readTr := some emptyTxn,
                resp := some (.bool true) }, 0, some (.msg "promise value is not int64")) :=
  ⟨(C9_scalar_accessors (Promise.zero.do demoDoneChain) _ [] emptyTxn _ _ rfl).2.2.1 rfl true rfl,
    (C9_scalar_accessors (Promise.zero.do demoDoneChain) _ [] emptyTxn _ _ rfl).2.2.2.2.2 rfl _
      rfl (fun n hn => by cases hn)⟩
/-! ## `Value`: the deferred fetch -/

theorem Scan_fst (v : Value) (obj : List Slot) : (v.Scan obj).1 = v.get := by
  unfold Value.Scan Value.get
  cases hf : v.fetch <;> simp only [] <;> split <;> try split
  all_goals rfl

theorem Reflect_fst (v : Value) : v.Reflect.1 = v.get := by
  unfold Value.Reflect Value.get
  cases hf : v.fetch <;> simp only [] <;> split <;> try split
  all_goals rfl

theorem Err_fst (v : Value) : v.Err.1 = v.get := by
  unfold Value.Err Value.get
  cases hf : v.fetch <;> rfl

theorem Interface_fst (v : Value) : v.Interface.1 = v.get := by
  have h := Reflect_fst v
  unfold Value.Interface
  rcases hr : v.Reflect with ⟨w, r⟩
  rw [hr] at h
  cases r with
  | error a => exact h
  | ok x => exact h

/-- Every access leaves the value that `get` leaves. -/
theorem access_fst (v : Value) (a : Access) : (v.access a).1 = v.get := by
  cases a with
  | get => rfl
  | Scan obj => exact Scan_fst v obj
  | Reflect => exact Reflect_fst v
  | Err => exact Err_fst v
  | Interface => exact Interface_fst v

theorem get_pending (v : Value) (fetch : Fetched → Fetched) (h : v.fetch = some fetch) :
    v.get = v.fetched fetch := by
  simp [Value.get, Value.fetched, h]

theorem get_done (v : Value) (h : v.fetch = none) : v.get = v := by
  simp [Value.get, h]

theorem accesses_done (v : Value) (h : v.fetch = none) :
    ∀ rest : List Access, v.accesses rest = (v, rest.map (fun b => (v.access b).2)) := by
  intro rest
  induction rest with
  | nil => rfl
  | cons a rest ih =>
    simp only [Value.accesses, access_fst, get_done v h, ih, List.map_cons]

/-- C10: for a value with a pending fetch closure and a sequence of accesses `a :: rest`:
the first access runs the closure, once, and leaves the value with the data and the
error the closure produced and no closure; every later access leaves that value as
it is (the closure has run once at the end of the sequence, the counter is one up)
and returns what it returns on that value; if the closure left an error, every
`Scan` (the first access too) returns that error with the target as it was, and
every later `Reflect` and `Err` returns it. -/
theorem C10_fetch_runs_once (v : Value) (fetch : Fetched → Fetched)
    (h : v.fetch = some fetch) (a : Access) (rest : List Access) :
    (v.access a).1 = v.fetched fetch ∧
    (v.fetched fetch).fetchCalls = v.fetchCalls + 1 ∧
    (v.fetched fetch).fetch = none ∧
    (v.fetched fetch).data = (fetch ⟨v.data, v.err⟩).data ∧
    (v.fetched fetch).err = (fetch ⟨v.data, v.err⟩).err ∧
    (∀ b, ((v.fetched fetch).access b).1 = v.fetched fetch) ∧
    v.accesses (a :: rest)
      = (v.fetched fetch, (v.access a).2 :: rest.map (fun b => ((v.fetched fetch).access b).2)) ∧
    (∀ e, (fetch ⟨v.data, v.err⟩).err = some e →
      (∀ obj, (v.access (.Scan obj)).2 = .Scan (.ok (obj, some e))) ∧
      (∀ obj, ((v.fetched fetch).access (.Scan obj)).2 = .Scan (.ok (obj, some e))) ∧
      ((v.fetched fetch).access .Reflect).2 = .Reflect (.ok (⟨true, v.object.zero⟩, some e)) ∧
      ((v.fetched fetch).access .Err).2 = .Err (some e)) := by
  have h1 : (v.access a).1 = v.fetched fetch := by rw [access_fst, get_pending v fetch h]
  have hnone : (v.fetched fetch).fetch = none := rfl
  refine ⟨h1, rfl, rfl, rfl, rfl, ?_, ?_, ?_⟩
  · intro b
    rw [access_fst, get_done _ hnone]
  · simp only [Value.accesses, h1, accesses_done _ hnone]
  · intro e he
    refine ⟨?_, ?_, ?_, ?_⟩
    · intro obj
      simp [Value.access, Value.Scan, h, he]
    · intro obj
      simp [Value.access, Value.Scan, Value.fetched, he]
    · simp [Value.access, Value.Reflect, Value.fetched, he]
    · simp [Value.access, Value.Err, Value.fetched, he]

theorem C10_fetch_runs_once_witness :
    demoFailingValue.fetch.isSome = true ∧
    (demoFailingValue.accesses [.Err, .Scan demoObject.zero, .get, .Reflect, .Interface]).1.fetchCalls
      = 1 ∧
    (demoFailingValue.accesses [.Err, .Scan demoObject.zero, .get, .Reflect, .Interface]).2
      = [.Err (some .ErrNotFound), .Scan (.ok (demoObject.zero, some .ErrNotFound)), .get,
          .Reflect (.ok (⟨true, demoObject.zero⟩, some .ErrNotFound)),
          .Interface (.ok ⟨true, demoObject.zero⟩)] :=
  ⟨rfl,
    by rw [(C10_fetch_runs_once demoFailingValue _ rfl .Err
      [.Scan demoObject.zero, .get, .Reflect, .Interface]).2.2.2.2.2.2.1]; rfl,
    by rw [(C10_fetch_runs_once demoFailingValue _ rfl .Err
      [.Scan demoObject.zero, .get, .Reflect, .Interface]).2.2.2.2.2.2.1]; rfl⟩

end Stored
